import Mathlib

/-!
Verification development for the connect-four game server
(board engine `src/game.rs`, game-session actor `src/server/actor/game.rs`,
lobby registry `src/server/actor/lobby_router.rs`).

The Rust sources are shallowly embedded: machine integers become `Nat`
(with explicit wrapping where the source wraps), `Vec`/arrays become
`List`s, `Option`/`Result` become `Option`/`Except`-style sums, and
`&mut self` methods become state-passing functions.  A Rust method that
can panic (`unwrap`) is embedded with result type `Option _`, where
`none` marks the panic.
-/

namespace ConnectFour

/-- Players of the game (`Player` in `src/game.rs`). -/
inductive Player where
  | P1
  | P2
deriving DecidableEq, Repr

/-- Winner of a round (`GameWinner` in `src/game.rs`). -/
inductive GameWinner where
  | P1
  | P2
  | Draw
deriving DecidableEq, Repr

/-- `Player::other`. -/
def Player.other : Player → Player
  | .P1 => .P2
  | .P2 => .P1

/-- `FIELD_SIZE` (7). -/
def FIELD_SIZE : Nat := 7

/-- `WIN_LEN` (4). -/
def WIN_LEN : Nat := 4

/-- `LAST_TURN = FIELD_SIZE * FIELD_SIZE - 1` (48). -/
def LAST_TURN : Nat := FIELD_SIZE * FIELD_SIZE - 1

/-- A matched run, as its two endpoint cells (`GameMatch`). -/
abbrev GameMatch := (Nat × Nat) × (Nat × Nat)

/-- The grid: 7 columns of 7 slots, `field[x][y]` (`GameField`). -/
abbrev GameField := List (List (Option Player))

/-- `EMPTY_FIELD`. -/
def EMPTY_FIELD : GameField := List.replicate FIELD_SIZE (List.replicate FIELD_SIZE none)

/-- Read `field[x][y]`; out-of-range reads (never performed by the source
in-bounds loops) default to `none`. -/
def getCell (f : GameField) (x y : Nat) : Option Player :=
  (f.getD x []).getD y none

/-- Write `field[x][y] = v`. -/
def setCell (f : GameField) (x y : Nat) (v : Option Player) : GameField :=
  f.set x ((f.getD x []).set y v)

/-- `GameRules` (`src/game.rs`). -/
structure GameRules where
  starting_player : Player
  allow_draws : Bool
deriving DecidableEq, Repr

/-- `GameResult` (`src/game.rs`). -/
structure GameResult where
  winner : GameWinner
  matches' : List GameMatch
deriving DecidableEq, Repr

/-- `GameState` (`src/game.rs`). -/
structure GameState where
  player : Player
  turn : Nat
  result : Option GameResult
  last_move : Option Nat
deriving DecidableEq, Repr

/-- `Game` (`src/game.rs`). -/
structure Game where
  field : GameField
  state : GameState
  rules : GameRules
deriving DecidableEq, Repr

/-- `EndTurnError` (`src/game.rs`). -/
inductive EndTurnError where
  | IndexOutOfBounds
  | GameOver
  | ColumnFilled
deriving DecidableEq, Repr

/-- Loop body of `get_horizontal_and_vertical_matches` for a fixed `i`:
`j` scans `0..FIELD_SIZE`, carrying the run-length state of the vertical
line (`field[i][j]`) and the horizontal line (`field[j][i]`), pushing a
match whenever a run of length `>= WIN_LEN` ends, then flushing both
trailing runs. -/
def hvGo (f : GameField) (i : Nat) :
    Nat → Nat → Nat → Option Player → Nat → Option Player → List GameMatch →
      List GameMatch
  | 0, _, vLen, _, hLen, _, acc =>
    let accV := if WIN_LEN ≤ vLen then
        acc.concat ((i, FIELD_SIZE - vLen), (i, FIELD_SIZE - 1)) else acc
    if WIN_LEN ≤ hLen then
      accV.concat ((FIELD_SIZE - hLen, i), (FIELD_SIZE - 1, i)) else accV
  | fuel + 1, j, vLen, vLast, hLen, hLast, acc =>
    let v_player := getCell f i j
    let h_player := getCell f j i
    let (vLen1, vLast1, acc1) :=
      if v_player = vLast ∧ v_player.isSome then (vLen + 1, vLast, acc)
      else ((if v_player.isSome then 1 else 0), v_player,
            if WIN_LEN ≤ vLen then acc.concat ((i, j - vLen), (i, j - 1)) else acc)
    let (hLen1, hLast1, acc2) :=
      if h_player = hLast ∧ h_player.isSome then (hLen + 1, hLast, acc1)
      else ((if h_player.isSome then 1 else 0), h_player,
            if WIN_LEN ≤ hLen then acc1.concat ((j - hLen, i), (j - 1, i)) else acc1)
    hvGo f i fuel (j + 1) vLen1 vLast1 hLen1 hLast1 acc2

/-- `get_horizontal_and_vertical_matches` (`src/game.rs`): the outer loop
over `i`, appending into the shared `matches` vector. -/
def get_horizontal_and_vertical_matches (ms : List GameMatch) (f : GameField) :
    List GameMatch :=
  (List.range FIELD_SIZE).foldl (fun acc i => hvGo f i FIELD_SIZE 0 0 none 0 none acc) ms

/-- `dx = (-d.min(0)) as usize` in `get_diagonal_matches`. -/
def dxOf (d : Int) : Nat := (-(min d 0)).toNat

/-- `dy = d.max(0) as usize` in `get_diagonal_matches`. -/
def dyOf (d : Int) : Nat := (max d 0).toNat

/-- `b_max = FIELD_SIZE - d.unsigned_abs()` in `get_diagonal_matches`. -/
def bMaxOf (d : Int) : Nat := FIELD_SIZE - d.natAbs

/-- Loop body of `get_diagonal_matches` for a fixed `d` (with `dx`, `dy`,
`b_max` precomputed): `b` scans `0..b_max`, run-length encoding the
top-left/bottom-right diagonal (`field[b+dx][b+dy]`) and the mirrored
diagonal (`field[FIELD_SIZE-1-b-dx][b+dy]`), then flushing both. -/
def diagGo (f : GameField) (dx dy bMax : Nat) :
    Nat → Nat → Nat → Option Player → Nat → Option Player → List GameMatch →
      List GameMatch
  | 0, _, len1, _, len2, _, acc =>
    let accA := if WIN_LEN ≤ len1 then
        acc.concat ((bMax + dx - len1, bMax + dy - len1), (bMax + dx - 1, bMax + dy - 1))
      else acc
    if WIN_LEN ≤ len2 then
      accA.concat ((FIELD_SIZE + len2 - 1 - bMax - dx, bMax + dy - len2),
                   (FIELD_SIZE - bMax - dx, bMax + dy - 1))
    else accA
  | fuel + 1, b, len1, last1, len2, last2, acc =>
    let p1 := getCell f (b + dx) (b + dy)
    let p2 := getCell f (FIELD_SIZE - 1 - b - dx) (b + dy)
    let (len1n, last1n, acc1) :=
      if p1 = last1 ∧ p1.isSome then (len1 + 1, last1, acc)
      else ((if p1.isSome then 1 else 0), p1,
            if WIN_LEN ≤ len1 then
              acc.concat ((b + dx - len1, b + dy - len1), (b + dx - 1, b + dy - 1))
            else acc)
    let (len2n, last2n, acc2) :=
      if p2 = last2 ∧ p2.isSome then (len2 + 1, last2, acc1)
      else ((if p2.isSome then 1 else 0), p2,
            if WIN_LEN ≤ len2 then
              acc1.concat ((FIELD_SIZE + len2 - 1 - b - dx, b + dy - len2),
                           (FIELD_SIZE - b - dx, b + dy - 1))
            else acc1)
    diagGo f dx dy bMax fuel (b + 1) len1n last1n len2n last2n acc2

/-- The diagonal offsets `-D..=D` with `D = (FIELD_SIZE - WIN_LEN) as isize = 3`. -/
def dRange : List Int := (List.range 7).map (fun k => (k : Int) - 3)

/-- `get_diagonal_matches` (`src/game.rs`): the outer loop over `d`. -/
def get_diagonal_matches (ms : List GameMatch) (f : GameField) : List GameMatch :=
  dRange.foldl
    (fun acc d => diagGo f (dxOf d) (dyOf d) (bMaxOf d) (bMaxOf d) 0 0 none 0 none acc) ms

/-- All matches collected by `get_result`: the horizontal/vertical scan
followed by the diagonal scan, appending into one vector. -/
def allMatches (f : GameField) : List GameMatch :=
  get_diagonal_matches (get_horizontal_and_vertical_matches [] f) f

/-- Winner fold inside `get_result`. -/
def winnerFold (f : GameField) (ms : List GameMatch) : Bool × Bool :=
  ms.foldl
    (fun pr m =>
      match getCell f m.1.1 m.1.2 with
      | some .P1 => (true, pr.2)
      | some .P2 => (pr.1, true)
      | none => pr)
    (false, false)

/-- `get_result` (`src/game.rs`). -/
def get_result (f : GameField) (turn : Nat) : Option GameResult :=
  let ms := allMatches f
  if ms.isEmpty then
    if LAST_TURN ≤ turn then some ⟨.Draw, []⟩ else none
  else
    match winnerFold f ms with
    | (true, true) => some ⟨.Draw, ms⟩
    | (true, false) => some ⟨.P1, ms⟩
    | (false, true) => some ⟨.P2, ms⟩
    | (false, false) => none

/-- Descending scan of `Game::len_*`'s first loop: counts consecutive
cells equal to `some p` at positions `t-1, t-2, ...` of the line `l`,
stopping at the first mismatch (the `break`). -/
def cntDown (l : Nat → Option Player) (p : Player) : Nat → Nat
  | 0 => 0
  | t + 1 => if l t = some p then cntDown l p t + 1 else 0

/-- Ascending scan of `Game::len_*`'s second loop, driven by the number
of remaining positions: counts consecutive cells equal to `some p` at
positions `s, s+1, ...`, stopping at the first mismatch. -/
def cntUpAux (l : Nat → Option Player) (p : Player) : Nat → Nat → Nat
  | _, 0 => 0
  | s, fuel + 1 => if l s = some p then cntUpAux l p (s + 1) fuel + 1 else 0

/-- `Game::len_horizontal`: `1` plus the two directional scans along row `y`. -/
def len_horizontal (f : GameField) (x y : Nat) (p : Player) : Nat :=
  1 + cntDown (fun t => getCell f t y) p x
    + cntUpAux (fun t => getCell f t y) p (x + 1) (FIELD_SIZE - (x + 1))

/-- `Game::len_vertical`: `1` plus the two directional scans along column `x`. -/
def len_vertical (f : GameField) (x y : Nat) (p : Player) : Nat :=
  1 + cntDown (fun t => getCell f x t) p y
    + cntUpAux (fun t => getCell f x t) p (y + 1) (FIELD_SIZE - (y + 1))

/-- Descending scan of `Game::len_diagonal_tl_br`'s first loop
(`field[x-d][y-d]` for `d = 1..=x.min(y)`, breaking on mismatch). -/
def dcDown (f : GameField) (p : Player) : Nat → Nat → Nat
  | 0, _ => 0
  | _, 0 => 0
  | x + 1, y + 1 => if getCell f x y = some p then dcDown f p x y + 1 else 0

/-- Ascending scan of `Game::len_diagonal_tl_br`'s second loop
(`field[x+d][y+d]` for `d = 1..(FIELD_SIZE - x.max(y))`), fuel-driven. -/
def dcUpAux (f : GameField) (p : Player) : Nat → Nat → Nat → Nat
  | _, _, 0 => 0
  | x, y, fuel + 1 =>
    if getCell f (x + 1) (y + 1) = some p then dcUpAux f p (x + 1) (y + 1) fuel + 1 else 0

/-- `Game::len_diagonal_tl_br`. -/
def len_diagonal_tl_br (f : GameField) (x y : Nat) (p : Player) : Nat :=
  1 + dcDown f p x y + dcUpAux f p x y (FIELD_SIZE - max x y - 1)

/-- Scan of `Game::len_diagonal_tr_bl`'s first loop
(`field[x+d][y-d]` for `d = 1..=(y.min(FIELD_SIZE - 1 - x))`), fuel-driven. -/
def dcXupYdnAux (f : GameField) (p : Player) : Nat → Nat → Nat → Nat
  | _, _, 0 => 0
  | _, 0, _ + 1 => 0
  | x, y + 1, fuel + 1 =>
    if getCell f (x + 1) y = some p then dcXupYdnAux f p (x + 1) y fuel + 1 else 0

/-- Scan of `Game::len_diagonal_tr_bl`'s second loop
(`field[x-d][y+d]` for `d = 1..=(x.min(FIELD_SIZE - 1 - y))`), fuel-driven. -/
def dcXdnYupAux (f : GameField) (p : Player) : Nat → Nat → Nat → Nat
  | _, _, 0 => 0
  | 0, _, _ + 1 => 0
  | x + 1, y, fuel + 1 =>
    if getCell f x (y + 1) = some p then dcXdnYupAux f p x (y + 1) fuel + 1 else 0

/-- `Game::len_diagonal_tr_bl`. -/
def len_diagonal_tr_bl (f : GameField) (x y : Nat) (p : Player) : Nat :=
  1 + dcXupYdnAux f p x y (min y (FIELD_SIZE - 1 - x))
    + dcXdnYupAux f p x y (min x (FIELD_SIZE - 1 - y))

/-- `Game::is_move_winning`: some of the four line lengths through
`(x, y)` reaches `WIN_LEN`. -/
def is_move_winning (f : GameField) (x y : Nat) (p : Player) : Bool :=
  decide (WIN_LEN ≤ len_horizontal f x y p)
    || decide (WIN_LEN ≤ len_vertical f x y p)
    || decide (WIN_LEN ≤ len_diagonal_tl_br f x y p)
    || decide (WIN_LEN ≤ len_diagonal_tr_bl f x y p)

/-- Search loop in `Game::update_result`'s `allow_draws` branch:
`for i in 0..FIELD_SIZE { if field[col][i] == Some(p) { ...; break } }`,
returning the first matching slot index. -/
def find_top (f : GameField) (col : Nat) (p : Player) : Nat → Nat → Option Nat
  | 0, _ => none
  | fuel + 1, i =>
    if getCell f col i = some p then some i else find_top f col p fuel (i + 1)

/-- Value of the local `skip_incremental_check` computed by
`Game::update_result`'s `allow_draws` block: whether the opponent's piece
found in the `last_move` column completes a winning run. -/
def skipCheck (f : GameField) (rules : GameRules) (st : GameState) : Bool :=
  if rules.allow_draws then
    match st.last_move with
    | some col =>
      match find_top f col st.player.other FIELD_SIZE 0 with
      | some i => is_move_winning f col i st.player.other
      | none => false
    | none => false
  else false

/-- `Game::update_result` (`src/game.rs`), acting on the already-mutated
field; returns `none` when the source would panic on
`get_result(..).unwrap()`. -/
def update_result (f : GameField) (rules : GameRules) (st : GameState) (x y : Nat) :
    Option GameState :=
  if LAST_TURN ≤ st.turn then some { st with result := get_result f st.turn }
  else if rules.allow_draws ∧ st.turn % 2 = 0 then some st
  else if skipCheck f rules st || is_move_winning f x y st.player then
    match get_result f st.turn with
    | some r => some { st with result := some r }
    | none => none
  else some st

/-- `GameState::next_turn`. -/
def GameState.next_turn (st : GameState) (col : Nat) : GameState :=
  { st with turn := st.turn + 1, player := st.player.other, last_move := some col }

/-- `GameState::new`. -/
def GameState.new (starting_player : Player) : GameState :=
  { player := starting_player, turn := 0, result := none, last_move := none }

/-- `Game::new`. -/
def Game.new (rules : GameRules) : Game :=
  { field := EMPTY_FIELD, state := GameState.new rules.starting_player, rules := rules }

/-- Placement loop of `Game::end_turn`:
`for i in (0..FIELD_SIZE).rev() { if field[col][i].is_some() { continue } ... }`,
returning the first free slot scanning `i = 6, 5, ..., 0`, or `none` when
the column is full. -/
def findPlacement (f : GameField) (col : Nat) : Nat → Option Nat
  | 0 => none
  | k + 1 => if (getCell f col k).isSome then findPlacement f col k else some k

/-- `Game::end_turn` (`src/game.rs`).  The returned pair carries the game
state after the call together with the error, if any; the outer `Option`
is `none` when `update_result` would panic. -/
def end_turn (g : Game) (col : Nat) : Option (Game × Option EndTurnError) :=
  if g.field.length ≤ col then some (g, some .IndexOutOfBounds)
  else if g.state.result.isSome then some (g, some .GameOver)
  else
    match findPlacement g.field col FIELD_SIZE with
    | some i =>
      match update_result (setCell g.field col i (some g.state.player)) g.rules g.state
          col i with
      | some st =>
        some ({ field := setCell g.field col i (some g.state.player),
                state := st.next_turn col, rules := g.rules }, none)
      | none => none
    | none => some (g, some .ColumnFilled)

/-- Runs a sequence of moves from a given game, requiring every
`end_turn` call to succeed. -/
def playMoves (g : Game) : List Nat → Option Game
  | [] => some g
  | c :: cs =>
    match end_turn g c with
    | some (g2, none) => playMoves g2 cs
    | _ => none

/-- A game state reachable from a fresh board by successful moves. -/
def Reachable (g : Game) : Prop :=
  ∃ rules ms, playMoves (Game.new rules) ms = some g

/-! ### Specification-level predicates about the grid -/

/-- A horizontal 4-in-a-row of `p` starting at `(x, y)`. -/
def segH (f : GameField) (p : Player) (x y : Nat) : Prop :=
  ∀ t, t < WIN_LEN → getCell f (x + t) y = some p

/-- A vertical 4-in-a-row of `p` starting at `(x, y)`. -/
def segV (f : GameField) (p : Player) (x y : Nat) : Prop :=
  ∀ t, t < WIN_LEN → getCell f x (y + t) = some p

/-- A diagonal (`x` and `y` both increasing) 4-in-a-row of `p` from `(x, y)`. -/
def segD1 (f : GameField) (p : Player) (x y : Nat) : Prop :=
  ∀ t, t < WIN_LEN → getCell f (x + t) (y + t) = some p

/-- An antidiagonal (`x` decreasing, `y` increasing) 4-in-a-row of `p`
anchored at its largest-`x` cell `(x, y)`. -/
def segD2 (f : GameField) (p : Player) (x y : Nat) : Prop :=
  WIN_LEN - 1 ≤ x ∧ ∀ t, t < WIN_LEN → getCell f (x - t) (y + t) = some p

/-- `p` has some 4-in-a-row on the grid. -/
def HasSeg (f : GameField) (p : Player) : Prop :=
  (∃ x y, segH f p x y) ∨ (∃ x y, segV f p x y) ∨
  (∃ x y, segD1 f p x y) ∨ (∃ x y, segD2 f p x y)

/-- Some player has a 4-in-a-row on the grid. -/
def HasAnySeg (f : GameField) : Prop := ∃ p, HasSeg f p

/-- Well-formed grid: 7 columns of 7 slots. -/
def Wf (f : GameField) : Prop :=
  f.length = FIELD_SIZE ∧ ∀ c ∈ f, c.length = FIELD_SIZE

/-- Number of occupied cells. -/
def occCount (f : GameField) : Nat :=
  (f.map (fun c => c.countP (fun s => s.isSome))).sum

/-- Gravity invariant: in each column, occupied slots form a suffix of the
slot indices; equivalently no empty cell has a smaller index than an
occupied cell of the same column. -/
def Gravity (f : GameField) : Prop :=
  ∀ x y1 y2, y1 ≤ y2 → y2 < FIELD_SIZE →
    (getCell f x y1).isSome = true → (getCell f x y2).isSome = true

/-! ### Basic cell lemmas -/

theorem getCell_eq (f : GameField) (x y : Nat) :
    getCell f x y = ((f[x]?.getD [])[y]?).getD none := by
  simp [getCell]

theorem setCell_eq (f : GameField) (x y : Nat) (v : Option Player) :
    setCell f x y v = f.set x ((f[x]?.getD []).set y v) := by
  simp [setCell]

theorem getD_mem_of_lt {f : GameField} {x : Nat} (hx : x < f.length) :
    f[x]?.getD [] ∈ f := by
  rw [List.getElem?_eq_getElem hx]
  exact List.getElem_mem hx

theorem getCell_lt_of_wf {f : GameField} (hw : Wf f) {x y : Nat} {p : Player}
    (h : getCell f x y = some p) : x < FIELD_SIZE ∧ y < FIELD_SIZE := by
  obtain ⟨hl, hc⟩ := hw
  rw [getCell_eq] at h
  have hx : x < f.length := by
    by_contra hx
    rw [show f[x]? = none from List.getElem?_eq_none (by omega)] at h
    simp at h
  have hy : y < (f[x]?.getD []).length := by
    by_contra hy
    rw [show (f[x]?.getD [])[y]? = none from List.getElem?_eq_none (by omega)] at h
    simp at h
  exact ⟨hl ▸ hx, hc _ (getD_mem_of_lt hx) ▸ hy⟩

theorem getCell_empty (x y : Nat) : getCell EMPTY_FIELD x y = none := by
  rw [getCell_eq]
  unfold EMPTY_FIELD
  rw [List.getElem?_replicate]
  rcases Nat.lt_or_ge x FIELD_SIZE with hx | hx
  · rw [if_pos hx]
    simp only [Option.getD_some]
    rw [List.getElem?_replicate]
    split <;> rfl
  · rw [if_neg (by omega)]
    rfl

theorem length_setCell (f : GameField) (x y : Nat) (v : Option Player) :
    (setCell f x y v).length = f.length := by
  simp [setCell]

theorem wf_setCell {f : GameField} (hw : Wf f) (x y : Nat) (v : Option Player) :
    Wf (setCell f x y v) := by
  obtain ⟨hl, hc⟩ := hw
  by_cases hx : x < f.length
  · refine ⟨by simpa [setCell] using hl, ?_⟩
    intro c hcmem
    unfold setCell at hcmem
    rcases List.mem_or_eq_of_mem_set hcmem with h | h
    · exact hc _ h
    · subst h
      rw [List.length_set]
      apply hc
      rw [List.getD_eq_getElem?_getD, List.getElem?_eq_getElem hx]
      exact List.getElem_mem hx
  · have heq : setCell f x y v = f := by
      unfold setCell
      exact List.set_eq_of_length_le (by omega)
    rw [heq]
    exact ⟨hl, hc⟩

theorem getCell_setCell_same {f : GameField} (hw : Wf f) {x y : Nat}
    (hx : x < FIELD_SIZE) (hy : y < FIELD_SIZE) (v : Option Player) :
    getCell (setCell f x y v) x y = v := by
  obtain ⟨hl, hc⟩ := hw
  have hx' : x < f.length := by omega
  have hyl : y < (f[x]?.getD []).length := by rw [hc _ (getD_mem_of_lt hx')]; omega
  rw [getCell_eq, setCell_eq]
  rw [List.getElem?_set_self (by simpa using hx')]
  simp only [Option.getD_some]
  rw [List.getElem?_set_self hyl]
  rfl

theorem getCell_setCell_ne (f : GameField) {x y a b : Nat} (v : Option Player)
    (hne : ¬(a = x ∧ b = y)) : getCell (setCell f x y v) a b = getCell f a b := by
  rw [getCell_eq, setCell_eq, getCell_eq]
  by_cases hax : a = x
  · subst hax
    have hby : b ≠ y := by tauto
    by_cases hx : a < f.length
    · rw [List.getElem?_set_self (by simpa using hx)]
      simp only [Option.getD_some]
      rw [List.getElem?_set_ne (by omega)]
    · rw [List.set_eq_of_length_le (by omega)]
  · rw [List.getElem?_set_ne (by omega)]

/-! ### Counting and gravity lemmas -/

/-- Number of occupied slots of one column. -/
def colCount (c : List (Option Player)) : Nat := c.countP (fun s => s.isSome)

theorem occCount_cons (c : List (Option Player)) (tl : GameField) :
    occCount (c :: tl) = colCount c + occCount tl := by
  simp [occCount, colCount]

theorem colCount_set {co : List (Option Player)} {y : Nat} (p : Player)
    (hy : y < co.length) (hnone : (co[y]?).getD none = none) :
    colCount (co.set y (some p)) = colCount co + 1 := by
  induction co generalizing y with
  | nil => simp at hy
  | cons a tl ih =>
    cases y with
    | zero =>
      simp only [List.getElem?_cons_zero, Option.getD_some] at hnone
      subst hnone
      simp [colCount, List.countP_cons]
    | succ y =>
      simp only [List.getElem?_cons_succ] at hnone
      have := ih (by simpa using hy) hnone
      simp only [List.set_cons_succ, colCount, List.countP_cons] at *
      omega

theorem occCount_set {f : GameField} {x : Nat} {c2 : List (Option Player)}
    (hx : x < f.length) (hcc : colCount c2 = colCount ((f[x]?).getD []) + 1) :
    occCount (f.set x c2) = occCount f + 1 := by
  induction f generalizing x with
  | nil => simp at hx
  | cons c tl ih =>
    cases x with
    | zero =>
      simp only [List.getElem?_cons_zero, Option.getD_some] at hcc
      simp [occCount_cons, hcc]
      omega
    | succ x =>
      simp only [List.getElem?_cons_succ] at hcc
      have := ih (by simpa using hx) hcc
      simp [occCount_cons, this]
      omega

theorem occCount_setCell {f : GameField} (hw : Wf f) {x y : Nat} (p : Player)
    (hx : x < FIELD_SIZE) (hy : y < FIELD_SIZE) (hnone : getCell f x y = none) :
    occCount (setCell f x y (some p)) = occCount f + 1 := by
  obtain ⟨hl, hc⟩ := hw
  have hx' : x < f.length := by omega
  have hyl : y < (f[x]?.getD []).length := by rw [hc _ (getD_mem_of_lt hx')]; omega
  rw [setCell_eq]
  apply occCount_set hx'
  apply colCount_set p hyl
  rw [getCell_eq] at hnone
  exact hnone

theorem occCount_le {f : GameField} (hw : Wf f) : occCount f ≤ FIELD_SIZE * FIELD_SIZE := by
  obtain ⟨hl, hc⟩ := hw
  have hb : ∀ x ∈ f.map (fun c => c.countP (fun s => s.isSome)), x ≤ FIELD_SIZE := by
    intro x hx
    simp only [List.mem_map] at hx
    obtain ⟨c, hcm, rfl⟩ := hx
    calc c.countP (fun s => s.isSome) ≤ c.length := List.countP_le_length _
      _ = FIELD_SIZE := hc _ hcm
  calc occCount f ≤ (f.map (fun c => c.countP (fun s => s.isSome))).length • FIELD_SIZE :=
        List.sum_le_card_nsmul _ _ hb
    _ = FIELD_SIZE * FIELD_SIZE := by simp [hl, Nat.mul_comm]

theorem gravity_setCell {f : GameField} (hg : Gravity f) (hw : Wf f) {x i : Nat}
    (hx : x < FIELD_SIZE) (hi : i < FIELD_SIZE) (hnone : getCell f x i = none)
    (habove : ∀ j, i < j → j < FIELD_SIZE → (getCell f x j).isSome = true) (p : Player) :
    Gravity (setCell f x i (some p)) := by
  intro a y1 y2 h12 h2 h1
  by_cases hax : a = x
  · subst hax
    by_cases h1i : y1 = i
    · subst h1i
      rcases Nat.eq_or_lt_of_le h12 with rfl | hlt
      · exact h1
      · rw [getCell_setCell_ne _ _ (by omega)]
        exact habove _ hlt h2
    · rw [getCell_setCell_ne _ _ (by tauto)] at h1
      have h1i' : i < y1 := by
        rcases Nat.lt_or_ge y1 i with hlt | hge
        · exfalso
          have := hg a y1 i (by omega) (by omega) h1
          rw [hnone] at this
          simp at this
        · omega
      rw [getCell_setCell_ne _ _ (by omega)]
      exact hg a y1 y2 h12 h2 h1
  · rw [getCell_setCell_ne _ _ (by tauto)] at h1
    rw [getCell_setCell_ne _ _ (by tauto)]
    exact hg a y1 y2 h12 h2 h1

/-! ### `findPlacement` and `update_result` -/

theorem findPlacement_spec {f : GameField} {col : Nat} :
    ∀ {n i : Nat}, findPlacement f col n = some i →
      i < n ∧ getCell f col i = none ∧
        ∀ j, i < j → j < n → (getCell f col j).isSome = true := by
  intro n
  induction n with
  | zero => intro i h; simp [findPlacement] at h
  | succ k ih =>
    intro i h
    unfold findPlacement at h
    by_cases hk : (getCell f col k).isSome = true
    · rw [if_pos hk] at h
      obtain ⟨h1, h2, h3⟩ := ih h
      refine ⟨by omega, h2, ?_⟩
      intro j hij hj
      rcases Nat.lt_or_ge j k with hlt | hge
      · exact h3 j hij hlt
      · have : j = k := by omega
        subst this
        exact hk
    · rw [if_neg hk] at h
      cases h
      refine ⟨by omega, ?_, ?_⟩
      · exact Option.not_isSome_iff_eq_none.1 (by simpa using hk)
      · intro j hij hj
        omega

theorem findPlacement_none {f : GameField} {col : Nat} :
    ∀ {n : Nat}, findPlacement f col n = none ↔ ∀ i, i < n → (getCell f col i).isSome = true := by
  intro n
  induction n with
  | zero => simp [findPlacement]
  | succ k ih =>
    unfold findPlacement
    by_cases hk : (getCell f col k).isSome = true
    · rw [if_pos hk, ih]
      constructor
      · intro h i hi
        rcases Nat.lt_or_ge i k with hlt | hge
        · exact h i hlt
        · have : i = k := by omega
          subst this
          exact hk
      · intro h i hi
        exact h i (by omega)
    · rw [if_neg hk]
      constructor
      · intro h
        exact absurd h (by simp)
      · intro h
        exact absurd (h k (by omega)) hk

theorem update_result_shape {f : GameField} {rules : GameRules} {st st' : GameState}
    {x y : Nat} (h : update_result f rules st x y = some st') :
    ∃ r, st' = { st with result := r } := by
  unfold update_result at h
  split at h
  · exact ⟨_, (Option.some.inj h).symm⟩
  · split at h
    · exact ⟨st.result, by cases h; rfl⟩
    · split at h
      · split at h
        · exact ⟨_, (Option.some.inj h).symm⟩
        · exact absurd h (by simp)
      · exact ⟨st.result, by cases h; rfl⟩

theorem end_turn_ok {g g2 : Game} {col : Nat} (h : end_turn g col = some (g2, none)) :
    ∃ i st', col < g.field.length ∧ g.state.result = none ∧
      findPlacement g.field col FIELD_SIZE = some i ∧
      update_result (setCell g.field col i (some g.state.player)) g.rules g.state col i
        = some st' ∧
      g2 = { field := setCell g.field col i (some g.state.player),
             state := st'.next_turn col, rules := g.rules } := by
  unfold end_turn at h
  split at h
  · simp at h
  · split at h
    · simp at h
    · rename_i hcol hres
      split at h
      · rename_i i hfind
        split at h
        · rename_i st' hupd
          refine ⟨i, st', by omega, ?_, hfind, hupd, ?_⟩
          · exact Option.not_isSome_iff_eq_none.1 (by simpa using hres)
          · cases h
            rfl
        · cases h
      · simp at h

/-! ### The reachability invariant -/

/-- Invariant of every reachable engine state: a well-formed board, the
turn counter counting the occupied cells, gravity, and the current player
determined by the parity of the turn counter. -/
def EngineInv (g : Game) : Prop :=
  Wf g.field ∧ g.state.turn = occCount g.field ∧ Gravity g.field ∧
    g.state.player =
      (if g.state.turn % 2 = 0 then g.rules.starting_player
       else g.rules.starting_player.other)

theorem playMoves_preserves {P : Game → Prop}
    (step : ∀ g col g2, P g → end_turn g col = some (g2, none) → P g2) :
    ∀ (ms : List Nat) (g0 g : Game), P g0 → playMoves g0 ms = some g → P g := by
  intro ms
  induction ms with
  | nil => intro g0 g h0 h; cases h; exact h0
  | cons c cs ih =>
    intro g0 g h0 h
    unfold playMoves at h
    split at h
    · rename_i g1 heq
      exact ih g1 g (step g0 c g1 h0 heq) h
    · cases h

theorem engineInv_new (rules : GameRules) : EngineInv (Game.new rules) := by
  refine ⟨⟨rfl, ?_⟩, ?_, ?_, rfl⟩
  · intro co hc
    simp only [Game.new, EMPTY_FIELD] at hc
    rw [List.eq_of_mem_replicate hc]
    simp
  · show (0 : Nat) = occCount EMPTY_FIELD
    rfl
  · intro x y1 y2 _ _ h1
    rw [show (Game.new rules).field = EMPTY_FIELD from rfl, getCell_empty] at h1
    simp at h1

theorem engineInv_step {g : Game} {col : Nat} {g2 : Game}
    (hI : EngineInv g) (h : end_turn g col = some (g2, none)) : EngineInv g2 := by
  obtain ⟨hw, hcnt, hgrav, hpar⟩ := hI
  obtain ⟨i, st', hcol, hres, hfind, hupd, rfl⟩ := end_turn_ok h
  obtain ⟨hiF, hcell, habove⟩ := findPlacement_spec hfind
  have hcolF : col < FIELD_SIZE := by
    have := hw.1
    omega
  obtain ⟨r, rfl⟩ := update_result_shape hupd
  refine ⟨wf_setCell hw _ _ _, ?_, ?_, ?_⟩
  · simp only [GameState.next_turn]
    rw [occCount_setCell hw _ hcolF hiF hcell]
    omega
  · exact gravity_setCell hgrav hw hcolF hiF hcell habove _
  · simp only [GameState.next_turn]
    rw [hpar]
    rcases Nat.even_or_odd g.state.turn with he | ho
    · have h1 : g.state.turn % 2 = 0 := Nat.even_iff.1 he
      have h2 : (g.state.turn + 1) % 2 = 1 := by omega
      simp [h1, h2]
    · have h1 : g.state.turn % 2 = 1 := Nat.odd_iff.1 ho
      have h2 : (g.state.turn + 1) % 2 = 0 := by omega
      simp [h1, h2, Player.other]
      cases g.rules.starting_player <;> rfl

theorem reachable_engineInv {g : Game} (h : Reachable g) : EngineInv g := by
  obtain ⟨rules, ms, hp⟩ := h
  exact playMoves_preserves (fun _ _ _ => engineInv_step) ms _ g (engineInv_new rules) hp

/-! ### Sample games used as concrete witnesses -/

/-- Default rules (`GameRules::default()`): player 1 starts, no draws. -/
def sampleRules : GameRules := ⟨Player.P1, false⟩

/-- A mid-game position: moves 3,3,4,4 from the empty board. -/
def sampleGame : Game :=
  (playMoves (Game.new sampleRules) [3, 3, 4, 4]).getD (Game.new sampleRules)

/-- The won game of the spec's example: columns 3,3,4,4,5,5,6 give player 1
a horizontal run detected at the 7th move. -/
def wonGame : Game :=
  (playMoves (Game.new sampleRules) [3, 3, 4, 4, 5, 5, 6]).getD (Game.new sampleRules)

/-- A position whose column 3 is completely filled. -/
def filledColGame : Game :=
  (playMoves (Game.new sampleRules) [3, 3, 3, 3, 3, 3, 3]).getD (Game.new sampleRules)

/-! ### Claim C3: `end_turn` error cases -/

/-- C3: `end_turn` fails with `IndexOutOfBounds` when the column index is
at least the grid width 7, with `GameOver` (for an in-range column) once
`result` is set, and with `ColumnFilled` (for an in-range column of a
game that is not over) when the addressed column is full; in each case
the game value — board, turn counter, current player, last-move column
and result — is returned unchanged. -/
theorem end_turn_error_cases (g : Game) (col : Nat) (hlen : g.field.length = FIELD_SIZE) :
    (FIELD_SIZE ≤ col →
      end_turn g col = some (g, some EndTurnError.IndexOutOfBounds)) ∧
    (col < FIELD_SIZE → g.state.result.isSome = true →
      end_turn g col = some (g, some EndTurnError.GameOver)) ∧
    (col < FIELD_SIZE → g.state.result = none →
      (∀ i, i < FIELD_SIZE → (getCell g.field col i).isSome = true) →
      end_turn g col = some (g, some EndTurnError.ColumnFilled)) := by
  refine ⟨?_, ?_, ?_⟩
  · intro hc
    unfold end_turn
    rw [if_pos (by omega)]
  · intro hc hres
    unfold end_turn
    rw [if_neg (by omega), if_pos hres]
  · intro hc hres hfull
    unfold end_turn
    rw [if_neg (by omega), if_neg (by simp [hres]),
      show findPlacement g.field col FIELD_SIZE = none from findPlacement_none.2 hfull]

/-- Witness for C3: the three failures observed on concrete games. -/
theorem end_turn_error_cases_witness :
    end_turn (Game.new sampleRules) 7
      = some (Game.new sampleRules, some EndTurnError.IndexOutOfBounds) ∧
    end_turn wonGame 2 = some (wonGame, some EndTurnError.GameOver) ∧
    end_turn filledColGame 3 = some (filledColGame, some EndTurnError.ColumnFilled) :=
  ⟨(end_turn_error_cases (Game.new sampleRules) 7 (by decide)).1 (by decide),
   (end_turn_error_cases wonGame 2 (by decide)).2.1 (by decide) (by decide),
   (end_turn_error_cases filledColGame 3 (by decide)).2.2 (by decide) (by decide)
     (by decide)⟩

/-! ### Claim C6: move count, bound, gravity -/

/-- C6: after any sequence of successful moves from a fresh board, the
engine's turn counter equals the number of occupied cells, never exceeds
49, and the board satisfies the gravity invariant (within a column, no
empty cell strictly below an occupied cell). -/
theorem moveCount_bound_gravity (rules : GameRules) (ms : List Nat) (g : Game)
    (h : playMoves (Game.new rules) ms = some g) :
    g.state.turn = occCount g.field ∧ g.state.turn ≤ 49 ∧ Gravity g.field := by
  have hI := reachable_engineInv ⟨rules, ms, h⟩
  obtain ⟨hw, hcnt, hgrav, _⟩ := hI
  refine ⟨hcnt, ?_, hgrav⟩
  rw [hcnt]
  have := occCount_le hw
  simpa [FIELD_SIZE] using this

/-- Witness for C6 at a concrete move sequence. -/
theorem moveCount_bound_gravity_witness :
    wonGame.state.turn = occCount wonGame.field ∧ wonGame.state.turn ≤ 49 ∧
      Gravity wonGame.field :=
  moveCount_bound_gravity sampleRules [3, 3, 4, 4, 5, 5, 6] wonGame (by decide)


/-- Proof-side mirror of one run-length-encoding loop: processes positions
`j, j+1, ...` of the line `l` (fuel-driven), carrying the current run
length and last cell, and emitting the half-open position interval
`(a, b)` of every maximal run of length at least `WIN_LEN`. -/
def scanGo (l : Nat → Option Player) :
    Nat → Nat → Nat → Option Player → List (Nat × Nat) → List (Nat × Nat)
  | 0, j, len, _, acc => if WIN_LEN ≤ len then acc.concat (j - len, j) else acc
  | fuel + 1, j, len, last, acc =>
    if l j = last ∧ (l j).isSome then scanGo l fuel (j + 1) (len + 1) last acc
    else
      scanGo l fuel (j + 1) (if (l j).isSome then 1 else 0) (l j)
        (if WIN_LEN ≤ len then acc.concat (j - len, j) else acc)

/-- A maximal run of the line `l` (of length `n`) on the half-open
position interval `[a, b)`, of length at least `WIN_LEN`. -/
def maxRun (l : Nat → Option Player) (n a b : Nat) : Prop :=
  a < b ∧ b ≤ n ∧ WIN_LEN ≤ b - a ∧
  ∃ p, (∀ t, a ≤ t → t < b → l t = some p) ∧
    (a = 0 ∨ l (a - 1) ≠ some p) ∧ (b = n ∨ l b ≠ some p)

/-- Invariant of the run-length state `(len, last)` once the loop has
processed positions `0, ..., j-1` of `l`. -/
def StOk (l : Nat → Option Player) (j len : Nat) (last : Option Player) : Prop :=
  (last = if j = 0 then none else l (j - 1)) ∧
  ((len = 0 ∧ (j = 0 ∨ l (j - 1) = none)) ∨
   (0 < len ∧ len ≤ j ∧ 0 < j ∧ ∃ p, l (j - 1) = some p ∧
     (∀ t, j - len ≤ t → t < j → l t = some p) ∧
     (j - len = 0 ∨ l (j - len - 1) ≠ some p)))

/-- The intervals that the loop, resumed at position `j` with current run
length `len`, eventually emits. -/
def emits (l : Nat → Option Player) (n j len a b : Nat) : Prop :=
  maxRun l n a b ∧ j ≤ b ∧ (j ≤ a ∨ a = j - len)

theorem mem_concat_pair {α : Type} {xs : List α} {m x : α} :
    m ∈ xs.concat x ↔ m ∈ xs ∨ m = x := by
  simp [List.concat_eq_append]

theorem scanGo_mem (l : Nat → Option Player) (n : Nat) :
    ∀ (fuel j len : Nat) (last : Option Player) (acc : List (Nat × Nat)),
      fuel + j = n → StOk l j len last →
      ∀ a b, ((a, b) ∈ scanGo l fuel j len last acc ↔
        (a, b) ∈ acc ∨ emits l n j len a b) := by
  intro fuel
  induction fuel with
  | zero =>
    intro j len last acc hn hok a b
    have hj : j = n := by omega
    unfold scanGo
    by_cases hlen : WIN_LEN ≤ len
    · rw [if_pos hlen, mem_concat_pair]
      have hlenpos : 0 < len ∧ len ≤ j ∧ 0 < j ∧ ∃ p, l (j - 1) = some p ∧
          (∀ t, j - len ≤ t → t < j → l t = some p) ∧
          (j - len = 0 ∨ l (j - len - 1) ≠ some p) := by
        rcases hok.2 with ⟨h0, _⟩ | h
        · exfalso
          unfold WIN_LEN at hlen
          omega
        · exact h
      obtain ⟨hpos, hle, hnpos, p, hp, hseg, hlmax⟩ := hlenpos
      constructor
      · rintro (h | h)
        · exact Or.inl h
        · right
          rw [Prod.mk.injEq] at h
          obtain ⟨ha, hb⟩ := h
          refine ⟨⟨by omega, by omega, by omega, p, ?_, ?_, Or.inl (by omega)⟩,
            by omega, Or.inr ha⟩
          · intro t h1 h2
            exact hseg t (by omega) (by omega)
          · rcases hlmax with h3 | h3
            · exact Or.inl (by omega)
            · right
              rwa [show a - 1 = j - len - 1 by omega]
      · rintro (h | ⟨⟨hab, hbn, hba, _⟩, hjb, hja⟩)
        · exact Or.inl h
        · right
          have hb : b = j := by omega
          have ha : a = j - len := by
            rcases hja with h | h
            · omega
            · exact h
          rw [Prod.mk.injEq]
          exact ⟨ha, hb⟩
    · rw [if_neg hlen]
      constructor
      · intro h
        exact Or.inl h
      · rintro (h | ⟨⟨hab, hbn, hba, _⟩, hjb, hja⟩)
        · exact h
        · exfalso
          have hb : b = j := by omega
          have hlej : len ≤ j := by
            rcases hok.2 with ⟨h0, _⟩ | ⟨_, h1, _⟩
            · omega
            · omega
          have ha : a = j - len := by
            rcases hja with h | h
            · omega
            · exact h
          omega
  | succ fuel ih =>
    intro j len last acc hn hok a b
    have hjn : j < n := by omega
    unfold scanGo
    by_cases hc : l j = last ∧ (l j).isSome
    · rw [if_pos hc]
      obtain ⟨hlast, hdisj⟩ := hok
      have hj0 : j ≠ 0 := by
        intro h
        rw [hlast, if_pos h] at hc
        obtain ⟨h1, h2⟩ := hc
        rw [h1] at h2
        simp at h2
      rw [if_neg hj0] at hlast
      obtain ⟨q, hq⟩ : ∃ q, l j = some q := Option.isSome_iff_exists.1 hc.2
      have hprev : l (j - 1) = some q := by rw [← hlast, ← hc.1, hq]
      have hdisj2 : 0 < len ∧ len ≤ j ∧ 0 < j ∧ ∃ p, l (j - 1) = some p ∧
          (∀ t, j - len ≤ t → t < j → l t = some p) ∧
          (j - len = 0 ∨ l (j - len - 1) ≠ some p) := by
        rcases hdisj with ⟨h0, hnil | hnone⟩ | h
        · omega
        · rw [hnone] at hprev
          cases hprev
        · exact h
      obtain ⟨hpos, hle, _, p, hp, hseg, hlmax⟩ := hdisj2
      have hpq : p = q := by
        rw [hp] at hprev
        exact Option.some.inj hprev
      subst hpq
      have hok2 : StOk l (j + 1) (len + 1) last := by
        refine ⟨?_, Or.inr ⟨by omega, by omega,
          by omega, p, ?_, ?_, ?_⟩⟩
        · rw [if_neg (by omega), Nat.add_sub_cancel]
          exact hc.1.symm
        · rw [Nat.add_sub_cancel]
          exact hq
        · intro t h1 h2
          rcases Nat.lt_or_ge t j with hlt | hge
          · exact hseg t (by omega) hlt
          · have ht : t = j := by omega
            rw [ht]
            exact hq
        · have h1 : j + 1 - (len + 1) = j - len := by omega
          rw [h1]
          exact hlmax
      rw [ih (j + 1) (len + 1) last acc (by omega) hok2]
      have hemits : emits l n j len a b ↔ emits l n (j + 1) (len + 1) a b := by
        constructor
        · rintro ⟨hmr, hjb, hja⟩
          obtain ⟨hab, hbn, hba, r, hrseg, hrl, hrr⟩ := hmr
          have hbne : b ≠ j := by
            intro hbj
            have hr1 : l (j - 1) = some r := hrseg (j - 1) (by omega) (by omega)
            have hrp : r = p := by
              rw [hp] at hr1
              exact (Option.some.inj hr1).symm
            rcases hrr with h | h
            · omega
            · apply h
              rw [hbj, hq, hrp]
          refine ⟨⟨hab, hbn, hba, r, hrseg, hrl, hrr⟩, by omega, ?_⟩
          rcases hja with h | h
          · left
            rcases Nat.eq_or_lt_of_le h with haj | haj
            · exfalso
              have hra : l a = some r := hrseg a (by omega) (by omega)
              rw [← haj, hq] at hra
              have hrq : r = p := (Option.some.inj hra).symm
              rcases hrl with h2 | h2
              · omega
              · apply h2
                rw [← haj, hp, hrq]
            · omega
          · right
            omega
        · rintro ⟨hmr, hjb, hja⟩
          refine ⟨hmr, by omega, ?_⟩
          rcases hja with h | h
          · left
            omega
          · right
            omega
      rw [hemits]
    · rw [if_neg hc]
      have hok2 : StOk l (j + 1) (if (l j).isSome then 1 else 0) (l j) := by
        refine ⟨by rw [if_neg (by omega), Nat.add_sub_cancel], ?_⟩
        by_cases hs : (l j).isSome
        · obtain ⟨q, hq⟩ : ∃ q, l j = some q := Option.isSome_iff_exists.1 hs
          rw [if_pos hs]
          right
          refine ⟨by omega, by omega, by omega, q, by rw [Nat.add_sub_cancel]; exact hq, ?_, ?_⟩
          · intro t h1 h2
            have ht : t = j := by omega
            subst ht
            exact hq
          · simp only [Nat.add_sub_cancel]
            rcases Nat.eq_zero_or_pos j with hj0 | hj0
            · exact Or.inl hj0
            · right
              intro hcon
              apply hc
              refine ⟨?_, hs⟩
              rw [hok.1, if_neg (by omega)]
              rw [hq, hcon]
        · rw [if_neg hs]
          left
          refine ⟨rfl, Or.inr ?_⟩
          rw [Nat.add_sub_cancel]
          exact Option.not_isSome_iff_eq_none.1 hs
      rw [ih (j + 1) (if (l j).isSome then 1 else 0) (l j)
        (if WIN_LEN ≤ len then acc.concat (j - len, j) else acc) (by omega) hok2]
      have hmemacc : ((a, b) ∈ (if WIN_LEN ≤ len then acc.concat (j - len, j) else acc)) ↔
          ((a, b) ∈ acc ∨ (WIN_LEN ≤ len ∧ a = j - len ∧ b = j)) := by
        by_cases hlen4 : WIN_LEN ≤ len
        · rw [if_pos hlen4, mem_concat_pair, Prod.mk.injEq]
          tauto
        · rw [if_neg hlen4]
          tauto
      rw [hmemacc]
      have hemits : emits l n j len a b ↔
          ((WIN_LEN ≤ len ∧ a = j - len ∧ b = j) ∨
            emits l n (j + 1) (if (l j).isSome then 1 else 0) a b) := by
        constructor
        · rintro ⟨hmr, hjb, hja⟩
          obtain ⟨hab, hbn, hba, r, hrseg, hrl, hrr⟩ := hmr
          by_cases hbj : b = j
          · subst hbj
            have ha : a = b - len := by
              rcases hja with h | h
              · omega
              · exact h
            have hlenb : 0 < len ∧ len ≤ b := by
              rcases hok.2 with ⟨h0, _⟩ | ⟨h1, h2, _⟩
              · subst h0
                omega
              · exact ⟨h1, h2⟩
            left
            refine ⟨by omega, ha, rfl⟩
          · right
            have hbj1 : j + 1 ≤ b := by omega
            refine ⟨⟨hab, hbn, hba, r, hrseg, hrl, hrr⟩, hbj1, ?_⟩
            by_cases hs : (l j).isSome
            · rw [if_pos hs]
              obtain ⟨q, hq⟩ : ∃ q, l j = some q := Option.isSome_iff_exists.1 hs
              rcases hja with h | h
              · rcases Nat.eq_or_lt_of_le h with haj | haj
                · right
                  omega
                · left
                  omega
              · -- a = j - len; show len = 0 (so a = j), else contradiction with break
                rcases hok.2 with ⟨h0, _⟩ | ⟨hpos, hle, hjpos, p, hp, _, _⟩
                · right
                  omega
                · exfalso
                  have hcovj : l j = some r := hrseg j (by omega) (by omega)
                  have hcovj1 : l (j - 1) = some r := hrseg (j - 1) (by omega) (by omega)
                  apply hc
                  rw [hok.1, if_neg (by omega)]
                  rw [hcovj, hcovj1]
                  exact ⟨rfl, rfl⟩
            · rw [if_neg hs]
              have haj1 : j + 1 ≤ a := by
                by_contra hcon
                have hcov : l j = some r := hrseg j (by omega) (by omega)
                rw [Option.not_isSome_iff_eq_none.1 hs] at hcov
                cases hcov
              left
              exact haj1
        · rintro (⟨hlen4, ha, hb⟩ | ⟨hmr, hjb, hja⟩)
          · have hdisj2 : 0 < len ∧ len ≤ j ∧ 0 < j ∧ ∃ p, l (j - 1) = some p ∧
                (∀ t, j - len ≤ t → t < j → l t = some p) ∧
                (j - len = 0 ∨ l (j - len - 1) ≠ some p) := by
              rcases hok.2 with ⟨h0, _⟩ | h
              · exfalso
                unfold WIN_LEN at hlen4
                omega
              · exact h
            obtain ⟨hpos, hle, hjpos, p, hp, hseg, hlmax⟩ := hdisj2
            refine ⟨⟨by omega, by omega, by omega, p, ?_, ?_, Or.inr ?_⟩,
              by omega, Or.inr ha⟩
            · intro t h1 h2
              exact hseg t (by omega) (by omega)
            · rcases hlmax with h3 | h3
              · exact Or.inl (by omega)
              · right
                rwa [show a - 1 = j - len - 1 by omega]
            · rw [hb]
              intro hcon
              apply hc
              constructor
              · rw [hok.1, if_neg (by omega), hcon, hp]
              · rw [hcon]
                rfl
          · refine ⟨hmr, by omega, ?_⟩
            by_cases hs : (l j).isSome
            · rw [if_pos hs] at hja
              rcases hja with h | h
              · left
                omega
              · left
                omega
            · rw [if_neg hs] at hja
              rcases hja with h | h
              · left
                omega
              · left
                omega
      rw [hemits]
      tauto


theorem scanGo_append (l : Nat → Option Player) :
    ∀ (fuel j len : Nat) (last : Option Player) (acc : List (Nat × Nat)),
      scanGo l fuel j len last acc = acc ++ scanGo l fuel j len last [] := by
  intro fuel
  induction fuel with
  | zero =>
    intro j len last acc
    unfold scanGo
    by_cases h : WIN_LEN ≤ len
    · rw [if_pos h, if_pos h]
      simp [List.concat_eq_append]
    · rw [if_neg h, if_neg h]
      simp
  | succ fuel ih =>
    intro j len last acc
    unfold scanGo
    by_cases hc : l j = last ∧ (l j).isSome
    · rw [if_pos hc, if_pos hc]
      exact ih (j + 1) (len + 1) last acc
    · rw [if_neg hc, if_neg hc]
      by_cases hl : WIN_LEN ≤ len
      · rw [if_pos hl, if_pos hl]
        rw [ih (j + 1) _ (l j) (acc.concat (j - len, j)),
          ih (j + 1) _ (l j) ([].concat (j - len, j))]
        simp [List.concat_eq_append]
      · rw [if_neg hl, if_neg hl]
        exact ih (j + 1) _ (l j) acc

/-- Characterization of one full line scan: the emitted intervals are
exactly the maximal runs of length at least `WIN_LEN`. -/
theorem scanGo_char (l : Nat → Option Player) (n a b : Nat) :
    ((a, b) ∈ scanGo l n 0 0 none [] ↔ maxRun l n a b) := by
  have hok : StOk l 0 0 none := ⟨by rw [if_pos rfl], Or.inl ⟨rfl, Or.inl rfl⟩⟩
  rw [scanGo_mem l n n 0 0 none [] (by omega) hok a b]
  constructor
  · rintro (h | ⟨hm, _, _⟩)
    · simp at h
    · exact hm
  · intro hm
    exact Or.inr ⟨hm, Nat.zero_le _, Or.inl (Nat.zero_le _)⟩

/-- The vertical line of column `i`: position `t` is `field[i][t]`. -/
def lineV (f : GameField) (i t : Nat) : Option Player := getCell f i t

/-- The horizontal line of row `i`: position `t` is `field[t][i]`. -/
def lineH (f : GameField) (i t : Nat) : Option Player := getCell f t i

/-- The diagonal line of offsets `(dx, dy)`: position `b` is
`field[b+dx][b+dy]`. -/
def lineD1 (f : GameField) (dx dy b : Nat) : Option Player := getCell f (b + dx) (b + dy)

/-- The antidiagonal line of offsets `(dx, dy)`: position `b` is
`field[FIELD_SIZE-1-b-dx][b+dy]`. -/
def lineD2 (f : GameField) (dx dy b : Nat) : Option Player :=
  getCell f (FIELD_SIZE - 1 - b - dx) (b + dy)

/-- Coordinates of the match for an interval of the vertical line `i`. -/
def mapV (i : Nat) (ab : Nat × Nat) : GameMatch := ((i, ab.1), (i, ab.2 - 1))

/-- Coordinates of the match for an interval of the horizontal line `i`. -/
def mapH (i : Nat) (ab : Nat × Nat) : GameMatch := ((ab.1, i), (ab.2 - 1, i))

/-- Coordinates of the match for an interval of a diagonal line. -/
def mapD1 (dx dy : Nat) (ab : Nat × Nat) : GameMatch :=
  ((ab.1 + dx, ab.1 + dy), (ab.2 - 1 + dx, ab.2 - 1 + dy))

/-- Coordinates of the match for an interval of an antidiagonal line. -/
def mapD2 (dx dy : Nat) (ab : Nat × Nat) : GameMatch :=
  ((FIELD_SIZE - 1 - ab.1 - dx, ab.1 + dy), (FIELD_SIZE - 1 - (ab.2 - 1) - dx, ab.2 - 1 + dy))

theorem hvGo_mem (f : GameField) (i : Nat) :
    ∀ (fuel j vLen : Nat) (vLast : Option Player) (hLen : Nat) (hLast : Option Player)
      (acc : List GameMatch) (m : GameMatch), fuel + j = FIELD_SIZE →
      (m ∈ hvGo f i fuel j vLen vLast hLen hLast acc ↔
        m ∈ acc ∨ m ∈ (scanGo (lineV f i) fuel j vLen vLast []).map (mapV i)
          ∨ m ∈ (scanGo (lineH f i) fuel j hLen hLast []).map (mapH i)) := by
  intro fuel
  induction fuel with
  | zero =>
    intro j vLen vLast hLen hLast acc m hn
    have hj : j = FIELD_SIZE := by omega
    subst hj
    unfold hvGo scanGo
    by_cases hv : WIN_LEN ≤ vLen <;> by_cases hh : WIN_LEN ≤ hLen <;>
      simp only [hv, hh, ite_true, ite_false, mem_concat_pair, List.map_concat,
        List.map_nil, List.not_mem_nil, mapV, mapH] <;> tauto
  | succ fuel ih =>
    intro j vLen vLast hLen hLast acc m hn
    unfold hvGo scanGo
    simp only [show ∀ t, lineV f i t = getCell f i t from fun _ => rfl,
      show ∀ t, lineH f i t = getCell f t i from fun _ => rfl]
    by_cases hcv : getCell f i j = vLast ∧ (getCell f i j).isSome = true <;>
      by_cases hch : getCell f j i = hLast ∧ (getCell f j i).isSome = true
    · rw [if_pos hcv, if_pos hcv, if_pos hch, if_pos hch]
      dsimp only
      exact ih (j + 1) (vLen + 1) vLast (hLen + 1) hLast acc m (by omega)
    · rw [if_pos hcv, if_pos hcv, if_neg hch, if_neg hch]
      dsimp only
      rw [ih (j + 1) (vLen + 1) vLast _ (getCell f j i) _ m (by omega)]
      rw [scanGo_append (lineH f i) fuel (j + 1) _ (getCell f j i)
        (if WIN_LEN ≤ hLen then [].concat (j - hLen, j) else [])]
      by_cases hl : WIN_LEN ≤ hLen <;>
        simp only [hl, ite_true, ite_false, mem_concat_pair, List.map_append,
          List.mem_append, List.map_concat, List.map_nil, List.not_mem_nil,
          List.concat_nil, List.map_cons, List.mem_singleton, mapH] <;> tauto
    · rw [if_neg hcv, if_neg hcv, if_pos hch, if_pos hch]
      dsimp only
      rw [ih (j + 1) _ (getCell f i j) (hLen + 1) hLast _ m (by omega)]
      rw [scanGo_append (lineV f i) fuel (j + 1) _ (getCell f i j)
        (if WIN_LEN ≤ vLen then [].concat (j - vLen, j) else [])]
      by_cases hl : WIN_LEN ≤ vLen <;>
        simp only [hl, ite_true, ite_false, mem_concat_pair, List.map_append,
          List.mem_append, List.map_concat, List.map_nil, List.not_mem_nil,
          List.concat_nil, List.map_cons, List.mem_singleton, mapV] <;> tauto
    · rw [if_neg hcv, if_neg hcv, if_neg hch, if_neg hch]
      dsimp only
      rw [ih (j + 1) _ (getCell f i j) _ (getCell f j i) _ m (by omega)]
      rw [scanGo_append (lineV f i) fuel (j + 1) _ (getCell f i j)
        (if WIN_LEN ≤ vLen then [].concat (j - vLen, j) else [])]
      rw [scanGo_append (lineH f i) fuel (j + 1) _ (getCell f j i)
        (if WIN_LEN ≤ hLen then [].concat (j - hLen, j) else [])]
      by_cases hlv : WIN_LEN ≤ vLen <;> by_cases hlh : WIN_LEN ≤ hLen <;>
        simp only [hlv, hlh, ite_true, ite_false, mem_concat_pair, List.map_append,
          List.mem_append, List.map_concat, List.map_nil, List.not_mem_nil,
          List.concat_nil, List.map_cons, List.mem_singleton, mapV, mapH] <;> tauto

end ConnectFour

namespace ConnectFour

set_option maxHeartbeats 1000000 in
theorem diagGo_mem (f : GameField) (dx dy bMax : Nat) :
    ∀ (fuel b len1 : Nat) (last1 : Option Player) (len2 : Nat) (last2 : Option Player)
      (acc : List GameMatch) (m : GameMatch),
      fuel + b = bMax → len1 ≤ b → len2 ≤ b →
      (m ∈ diagGo f dx dy bMax fuel b len1 last1 len2 last2 acc ↔
        m ∈ acc ∨ m ∈ (scanGo (lineD1 f dx dy) fuel b len1 last1 []).map (mapD1 dx dy)
          ∨ m ∈ (scanGo (lineD2 f dx dy) fuel b len2 last2 []).map (mapD2 dx dy)) := by
  intro fuel
  induction fuel with
  | zero =>
    intro b len1 last1 len2 last2 acc m hn h1b h2b
    have hj : b = bMax := by omega
    unfold diagGo scanGo
    have e1 : WIN_LEN ≤ len1 →
        ((bMax + dx - len1, bMax + dy - len1), (bMax + dx - 1, bMax + dy - 1))
          = mapD1 dx dy (b - len1, b) := by
      intro hl
      have hl1 : 1 ≤ len1 := by unfold WIN_LEN at hl; omega
      simp only [mapD1, Prod.mk.injEq]
      refine ⟨⟨by omega, by omega⟩, by omega, by omega⟩
    have e2 : WIN_LEN ≤ len2 →
        ((FIELD_SIZE + len2 - 1 - bMax - dx, bMax + dy - len2),
          (FIELD_SIZE - bMax - dx, bMax + dy - 1))
          = mapD2 dx dy (b - len2, b) := by
      intro hl
      have hl1 : 1 ≤ len2 := by unfold WIN_LEN at hl; omega
      simp only [mapD2, Prod.mk.injEq]
      refine ⟨⟨by omega, by omega⟩, by omega, by omega⟩
    by_cases hv : WIN_LEN ≤ len1 <;> by_cases hh : WIN_LEN ≤ len2
    · rw [e1 hv, e2 hh]
      simp only [hv, hh, ite_true, mem_concat_pair, List.map_concat, List.map_nil,
        List.not_mem_nil]
      try tauto
    · rw [e1 hv]
      simp only [hv, hh, ite_true, ite_false, mem_concat_pair, List.map_concat,
        List.map_nil, List.not_mem_nil]
      try tauto
    · rw [e2 hh]
      simp only [hv, hh, ite_true, ite_false, mem_concat_pair, List.map_concat,
        List.map_nil, List.not_mem_nil]
      try tauto
    · simp only [hv, hh, ite_false, List.map_nil, List.not_mem_nil]
      try tauto
  | succ fuel ih =>
    intro b len1 last1 len2 last2 acc m hn h1b h2b
    unfold diagGo scanGo
    simp only [show ∀ t, lineD1 f dx dy t = getCell f (t + dx) (t + dy) from fun _ => rfl,
      show ∀ t, lineD2 f dx dy t = getCell f (FIELD_SIZE - 1 - t - dx) (t + dy)
        from fun _ => rfl]
    have e1 : WIN_LEN ≤ len1 →
        ((b + dx - len1, b + dy - len1), (b + dx - 1, b + dy - 1))
          = mapD1 dx dy (b - len1, b) := by
      intro hl
      have hl1 : 1 ≤ len1 := by unfold WIN_LEN at hl; omega
      simp only [mapD1, Prod.mk.injEq]
      refine ⟨⟨by omega, by omega⟩, by omega, by omega⟩
    have e2 : WIN_LEN ≤ len2 →
        ((FIELD_SIZE + len2 - 1 - b - dx, b + dy - len2), (FIELD_SIZE - b - dx, b + dy - 1))
          = mapD2 dx dy (b - len2, b) := by
      intro hl
      have hl1 : 1 ≤ len2 := by unfold WIN_LEN at hl; omega
      simp only [mapD2, Prod.mk.injEq]
      refine ⟨⟨by omega, by omega⟩, by omega, by omega⟩
    by_cases hc1 : getCell f (b + dx) (b + dy) = last1 ∧ (getCell f (b + dx) (b + dy)).isSome
        = true <;>
      by_cases hc2 : getCell f (FIELD_SIZE - 1 - b - dx) (b + dy) = last2 ∧
        (getCell f (FIELD_SIZE - 1 - b - dx) (b + dy)).isSome = true
    · rw [if_pos hc1, if_pos hc1, if_pos hc2, if_pos hc2]
      dsimp only
      exact ih (b + 1) (len1 + 1) last1 (len2 + 1) last2 acc m (by omega) (by omega) (by omega)
    · rw [if_pos hc1, if_pos hc1, if_neg hc2, if_neg hc2]
      dsimp only
      rw [ih (b + 1) (len1 + 1) last1 _ (getCell f (FIELD_SIZE - 1 - b - dx) (b + dy)) _ m
        (by omega) (by omega) (by split <;> omega)]
      rw [scanGo_append (lineD2 f dx dy) fuel (b + 1) _
        (getCell f (FIELD_SIZE - 1 - b - dx) (b + dy))
        (if WIN_LEN ≤ len2 then [].concat (b - len2, b) else [])]
      by_cases hl : WIN_LEN ≤ len2
      · rw [e2 hl]
        simp only [hl, ite_true, mem_concat_pair, List.map_append, List.mem_append,
          List.map_concat, List.map_nil, List.not_mem_nil, List.concat_nil,
          List.map_cons, List.mem_singleton]
        try tauto
      · simp only [hl, ite_false, List.map_append, List.mem_append, List.map_nil,
          List.not_mem_nil, List.nil_append]
        try tauto
    · rw [if_neg hc1, if_neg hc1, if_pos hc2, if_pos hc2]
      dsimp only
      rw [ih (b + 1) _ (getCell f (b + dx) (b + dy)) (len2 + 1) last2 _ m
        (by omega) (by split <;> omega) (by omega)]
      rw [scanGo_append (lineD1 f dx dy) fuel (b + 1) _ (getCell f (b + dx) (b + dy))
        (if WIN_LEN ≤ len1 then [].concat (b - len1, b) else [])]
      by_cases hl : WIN_LEN ≤ len1
      · rw [e1 hl]
        simp only [hl, ite_true, mem_concat_pair, List.map_append, List.mem_append,
          List.map_concat, List.map_nil, List.not_mem_nil, List.concat_nil,
          List.map_cons, List.mem_singleton]
        try tauto
      · simp only [hl, ite_false, List.map_append, List.mem_append, List.map_nil,
          List.not_mem_nil, List.nil_append]
        try tauto
    · rw [if_neg hc1, if_neg hc1, if_neg hc2, if_neg hc2]
      dsimp only
      rw [ih (b + 1) _ (getCell f (b + dx) (b + dy)) _
        (getCell f (FIELD_SIZE - 1 - b - dx) (b + dy)) _ m
        (by omega) (by split <;> omega) (by split <;> omega)]
      rw [scanGo_append (lineD1 f dx dy) fuel (b + 1) _ (getCell f (b + dx) (b + dy))
        (if WIN_LEN ≤ len1 then [].concat (b - len1, b) else [])]
      rw [scanGo_append (lineD2 f dx dy) fuel (b + 1) _
        (getCell f (FIELD_SIZE - 1 - b - dx) (b + dy))
        (if WIN_LEN ≤ len2 then [].concat (b - len2, b) else [])]
      by_cases hl1 : WIN_LEN ≤ len1 <;> by_cases hl2 : WIN_LEN ≤ len2
      · rw [e1 hl1, e2 hl2]
        simp only [hl1, hl2, ite_true, mem_concat_pair, List.map_append, List.mem_append,
          List.map_concat, List.map_nil, List.not_mem_nil, List.concat_nil,
          List.map_cons, List.mem_singleton]
        try tauto
      · rw [e1 hl1]
        simp only [hl1, hl2, ite_true, ite_false, mem_concat_pair, List.map_append,
          List.mem_append, List.map_concat, List.map_nil, List.not_mem_nil,
          List.concat_nil, List.map_cons, List.mem_singleton, List.nil_append]
        try tauto
      · rw [e2 hl2]
        simp only [hl1, hl2, ite_true, ite_false, mem_concat_pair, List.map_append,
          List.mem_append, List.map_concat, List.map_nil, List.not_mem_nil,
          List.concat_nil, List.map_cons, List.mem_singleton, List.nil_append]
        try tauto
      · simp only [hl1, hl2, ite_false, List.map_append, List.mem_append, List.map_nil,
          List.not_mem_nil, List.nil_append]
        try tauto


theorem foldl_mem {δ : Type} (g : δ → List GameMatch → List GameMatch)
    (gs : δ → GameMatch → Prop)
    (hstep : ∀ d acc m, m ∈ g d acc ↔ m ∈ acc ∨ gs d m) :
    ∀ (ds : List δ) (init : List GameMatch) (m : GameMatch),
      m ∈ ds.foldl (fun acc d => g d acc) init ↔ m ∈ init ∨ ∃ d ∈ ds, gs d m := by
  intro ds
  induction ds with
  | nil => simp
  | cons d ds ih =>
    intro init m
    simp only [List.foldl_cons]
    rw [ih (g d init) m, hstep d init m]
    constructor
    · rintro ((h | h) | ⟨d2, hd2, h⟩)
      · exact Or.inl h
      · exact Or.inr ⟨d, List.mem_cons_self d ds, h⟩
      · exact Or.inr ⟨d2, List.mem_cons_of_mem d hd2, h⟩
    · rintro (h | ⟨d2, hd2, h⟩)
      · exact Or.inl (Or.inl h)
      · rcases List.mem_cons.1 hd2 with rfl | hd2
        · exact Or.inl (Or.inr h)
        · exact Or.inr ⟨d2, hd2, h⟩

/-- Membership in the horizontal/vertical pass. -/
theorem get_hv_matches_mem (f : GameField) (ms : List GameMatch) (m : GameMatch) :
    m ∈ get_horizontal_and_vertical_matches ms f ↔
      m ∈ ms ∨ ∃ i ∈ List.range FIELD_SIZE,
        (m ∈ (scanGo (lineV f i) FIELD_SIZE 0 0 none []).map (mapV i)
          ∨ m ∈ (scanGo (lineH f i) FIELD_SIZE 0 0 none []).map (mapH i)) := by
  unfold get_horizontal_and_vertical_matches
  exact foldl_mem (fun i acc => hvGo f i FIELD_SIZE 0 0 none 0 none acc)
    (fun i m => m ∈ (scanGo (lineV f i) FIELD_SIZE 0 0 none []).map (mapV i)
      ∨ m ∈ (scanGo (lineH f i) FIELD_SIZE 0 0 none []).map (mapH i))
    (fun i acc m => hvGo_mem f i FIELD_SIZE 0 0 none 0 none acc m (by omega))
    (List.range FIELD_SIZE) ms m

/-- Membership in the diagonal pass. -/
theorem get_diag_matches_mem (f : GameField) (ms : List GameMatch) (m : GameMatch) :
    m ∈ get_diagonal_matches ms f ↔
      m ∈ ms ∨ ∃ d ∈ dRange,
        (m ∈ (scanGo (lineD1 f (dxOf d) (dyOf d)) (bMaxOf d) 0 0 none []).map
            (mapD1 (dxOf d) (dyOf d))
          ∨ m ∈ (scanGo (lineD2 f (dxOf d) (dyOf d)) (bMaxOf d) 0 0 none []).map
            (mapD2 (dxOf d) (dyOf d))) := by
  unfold get_diagonal_matches
  exact foldl_mem
    (fun d acc => diagGo f (dxOf d) (dyOf d) (bMaxOf d) (bMaxOf d) 0 0 none 0 none acc)
    (fun d m => m ∈ (scanGo (lineD1 f (dxOf d) (dyOf d)) (bMaxOf d) 0 0 none []).map
        (mapD1 (dxOf d) (dyOf d))
      ∨ m ∈ (scanGo (lineD2 f (dxOf d) (dyOf d)) (bMaxOf d) 0 0 none []).map
        (mapD2 (dxOf d) (dyOf d)))
    (fun d acc m => diagGo_mem f (dxOf d) (dyOf d) (bMaxOf d) (bMaxOf d) 0 0 none 0 none
      acc m (by omega) (by omega) (by omega))
    dRange ms m

theorem mem_map_scan_iff {mp : Nat × Nat → GameMatch} {l : Nat → Option Player}
    {n : Nat} {m : GameMatch} :
    m ∈ (scanGo l n 0 0 none []).map mp ↔ ∃ a b, maxRun l n a b ∧ m = mp (a, b) := by
  rw [List.mem_map]
  constructor
  · rintro ⟨⟨a, b⟩, hab, rfl⟩
    exact ⟨a, b, (scanGo_char l n a b).1 hab, rfl⟩
  · rintro ⟨a, b, hab, rfl⟩
    exact ⟨(a, b), (scanGo_char l n a b).2 hab, rfl⟩

/-- Full characterization of the matches collected by `get_result`: they
are exactly the maximal runs of length at least 4 of the four line
families, with the line-local interval mapped to grid coordinates. -/
theorem allMatches_mem (f : GameField) (m : GameMatch) :
    m ∈ allMatches f ↔
      (∃ i, i < FIELD_SIZE ∧ ∃ a b, maxRun (lineV f i) FIELD_SIZE a b ∧ m = mapV i (a, b)) ∨
      (∃ i, i < FIELD_SIZE ∧ ∃ a b, maxRun (lineH f i) FIELD_SIZE a b ∧ m = mapH i (a, b)) ∨
      (∃ d ∈ dRange, ∃ a b,
        maxRun (lineD1 f (dxOf d) (dyOf d)) (bMaxOf d) a b
          ∧ m = mapD1 (dxOf d) (dyOf d) (a, b)) ∨
      (∃ d ∈ dRange, ∃ a b,
        maxRun (lineD2 f (dxOf d) (dyOf d)) (bMaxOf d) a b
          ∧ m = mapD2 (dxOf d) (dyOf d) (a, b)) := by
  unfold allMatches
  rw [get_diag_matches_mem, get_hv_matches_mem]
  simp only [List.not_mem_nil, false_or, List.mem_range, mem_map_scan_iff]
  constructor
  · rintro ((⟨i, hi, h | h⟩) | ⟨d, hd, h | h⟩)
    · exact Or.inl ⟨i, hi, h⟩
    · exact Or.inr (Or.inl ⟨i, hi, h⟩)
    · exact Or.inr (Or.inr (Or.inl ⟨d, hd, h⟩))
    · exact Or.inr (Or.inr (Or.inr ⟨d, hd, h⟩))
  · rintro (⟨i, hi, h⟩ | ⟨i, hi, h⟩ | ⟨d, hd, h⟩ | ⟨d, hd, h⟩)
    · exact Or.inl ⟨i, hi, Or.inl h⟩
    · exact Or.inl ⟨i, hi, Or.inr h⟩
    · exact Or.inr ⟨d, hd, Or.inl h⟩
    · exact Or.inr ⟨d, hd, Or.inr h⟩


theorem extendL (l : Nat → Option Player) (p : Player) (c : Nat) :
    ∀ a, (∀ t, a ≤ t → t < c → l t = some p) →
      ∃ a2, a2 ≤ a ∧ (∀ t, a2 ≤ t → t < c → l t = some p) ∧
        (a2 = 0 ∨ l (a2 - 1) ≠ some p) := by
  intro a
  induction a with
  | zero =>
    intro hseg
    exact ⟨0, Nat.le_refl 0, hseg, Or.inl rfl⟩
  | succ a ih =>
    intro hseg
    by_cases hp : l a = some p
    · have hseg2 : ∀ t, a ≤ t → t < c → l t = some p := by
        intro t h1 h2
        rcases Nat.eq_or_lt_of_le h1 with rfl | h
        · exact hp
        · exact hseg t (by omega) h2
      obtain ⟨a2, h1, h2, h3⟩ := ih hseg2
      exact ⟨a2, by omega, h2, h3⟩
    · exact ⟨a + 1, Nat.le_refl _, hseg, Or.inr (by simpa using hp)⟩

theorem extendR (l : Nat → Option Player) (p : Player) (n a : Nat) :
    ∀ (fuel : Nat), ∀ b, n ≤ b + fuel → b ≤ n →
      (∀ t, a ≤ t → t < b → l t = some p) →
      ∃ b2, b ≤ b2 ∧ b2 ≤ n ∧ (∀ t, a ≤ t → t < b2 → l t = some p) ∧
        (b2 = n ∨ l b2 ≠ some p) := by
  intro fuel
  induction fuel with
  | zero =>
    intro b h1 h2 hseg
    exact ⟨b, Nat.le_refl b, h2, hseg, Or.inl (by omega)⟩
  | succ fuel ih =>
    intro b h1 h2 hseg
    rcases Nat.eq_or_lt_of_le h2 with rfl | hbn
    · exact ⟨b, Nat.le_refl b, Nat.le_refl b, hseg, Or.inl rfl⟩
    · by_cases hp : l b = some p
      · have hseg2 : ∀ t, a ≤ t → t < b + 1 → l t = some p := by
          intro t ht1 ht2
          rcases Nat.lt_or_ge t b with h | h
          · exact hseg t ht1 h
          · have : t = b := by omega
            subst this
            exact hp
        obtain ⟨b2, hb1, hb2, hb3, hb4⟩ := ih (b + 1) (by omega) (by omega) hseg2
        exact ⟨b2, by omega, hb2, hb3, hb4⟩
      · exact ⟨b, Nat.le_refl b, h2, hseg, Or.inr hp⟩

/-- Any 4-long constant-player window of a line extends to a maximal run
of the same player. -/
theorem seg_extend_maxRun (l : Nat → Option Player) (n a : Nat) (p : Player)
    (hseg : ∀ t, t < WIN_LEN → l (a + t) = some p) (hn : a + WIN_LEN ≤ n) :
    ∃ a2 b2, maxRun l n a2 b2 ∧ a2 ≤ a ∧ a + WIN_LEN ≤ b2 ∧
      (∀ t, a2 ≤ t → t < b2 → l t = some p) := by
  have hseg2 : ∀ t, a ≤ t → t < a + WIN_LEN → l t = some p := by
    intro t h1 h2
    have := hseg (t - a) (by omega)
    rwa [show a + (t - a) = t by omega] at this
  obtain ⟨a2, ha2, hsegL, hlmax⟩ := extendL l p (a + WIN_LEN) a hseg2
  obtain ⟨b2, hb2, hb2n, hsegR, hrmax⟩ :=
    extendR l p n a2 n (a + WIN_LEN) (by omega) hn
      (fun t h1 h2 => hsegL t h1 h2)
  refine ⟨a2, b2, ⟨?_, hb2n, ?_, p, hsegR, hlmax, hrmax⟩, ha2, hb2, hsegR⟩
  · have hw : WIN_LEN = 4 := rfl
    omega
  · have hw : WIN_LEN = 4 := rfl
    omega

theorem dRange_eq : dRange = [-3, -2, -1, 0, 1, 2, 3] := by rfl

theorem mem_dRange {d : Int} : d ∈ dRange ↔ -3 ≤ d ∧ d ≤ 3 := by
  rw [dRange_eq]
  simp only [List.mem_cons, List.not_mem_nil, or_false]
  omega

theorem dxOf_nonneg {d : Int} (h : 0 ≤ d) : dxOf d = 0 := by
  unfold dxOf
  omega

theorem dyOf_nonneg {d : Int} (h : 0 ≤ d) : dyOf d = d.toNat := by
  unfold dyOf
  omega

theorem dxOf_neg {d : Int} (h : d < 0) : dxOf d = (-d).toNat := by
  unfold dxOf
  omega

theorem dyOf_neg {d : Int} (h : d < 0) : dyOf d = 0 := by
  unfold dyOf
  omega

theorem dx_dy_natAbs (d : Int) : dxOf d + dyOf d = d.natAbs := by
  unfold dxOf dyOf
  omega

theorem bMaxOf_eq (d : Int) : bMaxOf d = FIELD_SIZE - d.natAbs := rfl


theorem FIELD_SIZE_eq : FIELD_SIZE = 7 := rfl

theorem WIN_LEN_eq : WIN_LEN = 4 := rfl

theorem segV_match {f : GameField} {p : Player} {x y : Nat} (hw : Wf f)
    (h : segV f p x y) : ∃ m ∈ allMatches f, getCell f m.1.1 m.1.2 = some p := by
  have hb := getCell_lt_of_wf hw (h 3 (by rw [WIN_LEN_eq]; omega))
  obtain ⟨a2, b2, hmr, ha2, hb2, hsegR⟩ :=
    seg_extend_maxRun (lineV f x) FIELD_SIZE y p (fun t ht => h t ht)
      (by have hW : WIN_LEN = 4 := rfl; have hF : FIELD_SIZE = 7 := rfl; omega)
  refine ⟨mapV x (a2, b2), ?_, ?_⟩
  · rw [allMatches_mem]
    exact Or.inl ⟨x, by omega, a2, b2, hmr, rfl⟩
  · exact hsegR a2 (Nat.le_refl _) (by have := hmr.1; omega)

theorem segH_match {f : GameField} {p : Player} {x y : Nat} (hw : Wf f)
    (h : segH f p x y) : ∃ m ∈ allMatches f, getCell f m.1.1 m.1.2 = some p := by
  have hb := getCell_lt_of_wf hw (h 3 (by rw [WIN_LEN_eq]; omega))
  obtain ⟨a2, b2, hmr, ha2, hb2, hsegR⟩ :=
    seg_extend_maxRun (lineH f y) FIELD_SIZE x p (fun t ht => h t ht)
      (by have hW : WIN_LEN = 4 := rfl; have hF : FIELD_SIZE = 7 := rfl; omega)
  refine ⟨mapH y (a2, b2), ?_, ?_⟩
  · rw [allMatches_mem]
    exact Or.inr (Or.inl ⟨y, by omega, a2, b2, hmr, rfl⟩)
  · exact hsegR a2 (Nat.le_refl _) (by have := hmr.1; omega)

theorem segD1_match {f : GameField} {p : Player} {x y : Nat} (hw : Wf f)
    (h : segD1 f p x y) : ∃ m ∈ allMatches f, getCell f m.1.1 m.1.2 = some p := by
  have hb3 := getCell_lt_of_wf hw (h 3 (by rw [WIN_LEN_eq]; omega))
  have hb0 := getCell_lt_of_wf hw (h 0 (by rw [WIN_LEN_eq]; omega))
  rw [FIELD_SIZE_eq] at hb3 hb0
  rcases le_or_lt x y with hxy | hxy
  · set d : Int := (y : Int) - (x : Int) with hd
    have hdx : dxOf d = 0 := dxOf_nonneg (by omega)
    have hdy : dyOf d = y - x := by rw [dyOf_nonneg (by omega)]; omega
    have hna : d.natAbs = y - x := by omega
    have hseg2 : ∀ t, t < WIN_LEN → lineD1 f (dxOf d) (dyOf d) (x + t) = some p := by
      intro t ht
      show getCell f (x + t + dxOf d) (x + t + dyOf d) = some p
      rw [hdx, hdy, show x + t + 0 = x + t by omega, show x + t + (y - x) = y + t by omega]
      exact h t ht
    obtain ⟨a2, b2, hmr, ha2, hb2, hsegR⟩ :=
      seg_extend_maxRun (lineD1 f (dxOf d) (dyOf d)) (bMaxOf d) x p hseg2
        (by have hW : WIN_LEN = 4 := rfl; rw [bMaxOf_eq, FIELD_SIZE_eq, hna]; omega)
    refine ⟨mapD1 (dxOf d) (dyOf d) (a2, b2), ?_, ?_⟩
    · rw [allMatches_mem]
      exact Or.inr (Or.inr (Or.inl ⟨d, mem_dRange.2 (by omega), a2, b2, hmr, rfl⟩))
    · exact hsegR a2 (Nat.le_refl _) (by have := hmr.1; omega)
  · set d : Int := (y : Int) - (x : Int) with hd
    have hdx : dxOf d = x - y := by rw [dxOf_neg (by omega)]; omega
    have hdy : dyOf d = 0 := dyOf_neg (by omega)
    have hna : d.natAbs = x - y := by omega
    have hseg2 : ∀ t, t < WIN_LEN → lineD1 f (dxOf d) (dyOf d) (y + t) = some p := by
      intro t ht
      show getCell f (y + t + dxOf d) (y + t + dyOf d) = some p
      rw [hdx, hdy, show y + t + (x - y) = x + t by omega, show y + t + 0 = y + t by omega]
      exact h t ht
    obtain ⟨a2, b2, hmr, ha2, hb2, hsegR⟩ :=
      seg_extend_maxRun (lineD1 f (dxOf d) (dyOf d)) (bMaxOf d) y p hseg2
        (by have hW : WIN_LEN = 4 := rfl; rw [bMaxOf_eq, FIELD_SIZE_eq, hna]; omega)
    refine ⟨mapD1 (dxOf d) (dyOf d) (a2, b2), ?_, ?_⟩
    · rw [allMatches_mem]
      exact Or.inr (Or.inr (Or.inl ⟨d, mem_dRange.2 (by omega), a2, b2, hmr, rfl⟩))
    · exact hsegR a2 (Nat.le_refl _) (by have := hmr.1; omega)

theorem segD2_match {f : GameField} {p : Player} {x y : Nat} (hw : Wf f)
    (h : segD2 f p x y) : ∃ m ∈ allMatches f, getCell f m.1.1 m.1.2 = some p := by
  obtain ⟨hx3, hcells⟩ := h
  rw [WIN_LEN_eq] at hx3
  have hb3 := getCell_lt_of_wf hw (hcells 3 (by rw [WIN_LEN_eq]; omega))
  have hb0 := getCell_lt_of_wf hw (hcells 0 (by rw [WIN_LEN_eq]; omega))
  rw [FIELD_SIZE_eq] at hb3 hb0
  rcases le_or_lt 6 (x + y) with hxy | hxy
  · set d : Int := (x : Int) + (y : Int) - 6 with hd
    have hdx : dxOf d = 0 := dxOf_nonneg (by omega)
    have hdy : dyOf d = x + y - 6 := by rw [dyOf_nonneg (by omega)]; omega
    have hna : d.natAbs = x + y - 6 := by omega
    have hseg2 : ∀ t, t < WIN_LEN → lineD2 f (dxOf d) (dyOf d) (6 - x + t) = some p := by
      intro t ht
      rw [WIN_LEN_eq] at ht
      show getCell f (FIELD_SIZE - 1 - (6 - x + t) - dxOf d) ((6 - x + t) + dyOf d) = some p
      rw [hdx, hdy, FIELD_SIZE_eq,
        show 7 - 1 - (6 - x + t) - 0 = x - t by omega,
        show 6 - x + t + (x + y - 6) = y + t by omega]
      exact hcells t (by rw [WIN_LEN_eq]; omega)
    obtain ⟨a2, b2, hmr, ha2, hb2, hsegR⟩ :=
      seg_extend_maxRun (lineD2 f (dxOf d) (dyOf d)) (bMaxOf d) (6 - x) p hseg2
        (by have hW : WIN_LEN = 4 := rfl; rw [bMaxOf_eq, FIELD_SIZE_eq, hna]; omega)
    refine ⟨mapD2 (dxOf d) (dyOf d) (a2, b2), ?_, ?_⟩
    · rw [allMatches_mem]
      exact Or.inr (Or.inr (Or.inr ⟨d, mem_dRange.2 (by omega), a2, b2, hmr, rfl⟩))
    · exact hsegR a2 (Nat.le_refl _) (by have := hmr.1; omega)
  · set d : Int := (x : Int) + (y : Int) - 6 with hd
    have hdx : dxOf d = 6 - x - y := by rw [dxOf_neg (by omega)]; omega
    have hdy : dyOf d = 0 := dyOf_neg (by omega)
    have hna : d.natAbs = 6 - x - y := by omega
    have hseg2 : ∀ t, t < WIN_LEN → lineD2 f (dxOf d) (dyOf d) (y + t) = some p := by
      intro t ht
      rw [WIN_LEN_eq] at ht
      show getCell f (FIELD_SIZE - 1 - (y + t) - dxOf d) ((y + t) + dyOf d) = some p
      rw [hdx, hdy, FIELD_SIZE_eq,
        show 7 - 1 - (y + t) - (6 - x - y) = x - t by omega,
        show y + t + 0 = y + t by omega]
      exact hcells t (by rw [WIN_LEN_eq]; omega)
    obtain ⟨a2, b2, hmr, ha2, hb2, hsegR⟩ :=
      seg_extend_maxRun (lineD2 f (dxOf d) (dyOf d)) (bMaxOf d) y p hseg2
        (by have hW : WIN_LEN = 4 := rfl; rw [bMaxOf_eq, FIELD_SIZE_eq, hna]; omega)
    refine ⟨mapD2 (dxOf d) (dyOf d) (a2, b2), ?_, ?_⟩
    · rw [allMatches_mem]
      exact Or.inr (Or.inr (Or.inr ⟨d, mem_dRange.2 (by omega), a2, b2, hmr, rfl⟩))
    · exact hsegR a2 (Nat.le_refl _) (by have := hmr.1; omega)

/-- Completeness of the scans: any 4-in-a-row of `p` yields a collected
match whose start cell belongs to `p`. -/
theorem hasSeg_match {f : GameField} {p : Player} (hw : Wf f) (h : HasSeg f p) :
    ∃ m ∈ allMatches f, getCell f m.1.1 m.1.2 = some p := by
  rcases h with ⟨x, y, h⟩ | ⟨x, y, h⟩ | ⟨x, y, h⟩ | ⟨x, y, h⟩
  · exact segH_match hw h
  · exact segV_match hw h
  · exact segD1_match hw h
  · exact segD2_match hw h


/-- Soundness of the scans: each collected match starts at a cell owned by
some player, and that player has a 4-in-a-row on the grid. -/
theorem allMatches_sound {f : GameField} {m : GameMatch} (hm : m ∈ allMatches f) :
    ∃ p, getCell f m.1.1 m.1.2 = some p ∧ HasSeg f p := by
  rw [allMatches_mem] at hm
  have hW : WIN_LEN = 4 := rfl
  have hF : FIELD_SIZE = 7 := rfl
  rcases hm with ⟨i, hi, a, b, hmr, rfl⟩ | ⟨i, hi, a, b, hmr, rfl⟩ |
    ⟨d, hd, a, b, hmr, rfl⟩ | ⟨d, hd, a, b, hmr, rfl⟩
  · obtain ⟨hab, hbn, hba, p, hseg, _, _⟩ := hmr
    refine ⟨p, hseg a (Nat.le_refl a) (by omega), Or.inr (Or.inl ⟨i, a, ?_⟩)⟩
    intro t ht
    exact hseg (a + t) (by omega) (by omega)
  · obtain ⟨hab, hbn, hba, p, hseg, _, _⟩ := hmr
    refine ⟨p, hseg a (Nat.le_refl a) (by omega), Or.inl ⟨a, i, ?_⟩⟩
    intro t ht
    exact hseg (a + t) (by omega) (by omega)
  · obtain ⟨hab, hbn, hba, p, hseg, _, _⟩ := hmr
    refine ⟨p, hseg a (Nat.le_refl a) (by omega), Or.inr (Or.inr (Or.inl
      ⟨a + dxOf d, a + dyOf d, ?_⟩))⟩
    intro t ht
    have := hseg (a + t) (by omega) (by omega)
    show getCell f (a + dxOf d + t) (a + dyOf d + t) = some p
    rwa [show a + dxOf d + t = a + t + dxOf d by omega,
      show a + dyOf d + t = a + t + dyOf d by omega]
  · obtain ⟨hab, hbn, hba, p, hseg, _, _⟩ := hmr
    have hdr := mem_dRange.1 hd
    have hdxy := dx_dy_natAbs d
    have hbm : bMaxOf d = FIELD_SIZE - d.natAbs := bMaxOf_eq d
    have hadx : a + dxOf d + WIN_LEN ≤ FIELD_SIZE := by omega
    refine ⟨p, hseg a (Nat.le_refl a) (by omega), Or.inr (Or.inr (Or.inr
      ⟨FIELD_SIZE - 1 - a - dxOf d, a + dyOf d, ?_, ?_⟩))⟩
    · omega
    · intro t ht
      have := hseg (a + t) (by omega) (by omega)
      show getCell f (FIELD_SIZE - 1 - a - dxOf d - t) (a + dyOf d + t) = some p
      rwa [show FIELD_SIZE - 1 - a - dxOf d - t = FIELD_SIZE - 1 - (a + t) - dxOf d by omega,
        show a + dyOf d + t = a + t + dyOf d by omega]

/-- The winner fold: each component is set exactly when some match starts
at a cell of the corresponding player. -/
theorem winnerFold_spec (f : GameField) :
    ∀ (ms : List GameMatch) (pr : Bool × Bool),
      ((ms.foldl (fun pr m =>
          match getCell f m.1.1 m.1.2 with
          | some .P1 => (true, pr.2)
          | some .P2 => (pr.1, true)
          | none => pr) pr).1 = true ↔
        pr.1 = true ∨ ∃ m ∈ ms, getCell f m.1.1 m.1.2 = some Player.P1) ∧
      ((ms.foldl (fun pr m =>
          match getCell f m.1.1 m.1.2 with
          | some .P1 => (true, pr.2)
          | some .P2 => (pr.1, true)
          | none => pr) pr).2 = true ↔
        pr.2 = true ∨ ∃ m ∈ ms, getCell f m.1.1 m.1.2 = some Player.P2) := by
  intro ms
  induction ms with
  | nil => simp
  | cons m0 ms ih =>
    intro pr
    simp only [List.foldl_cons]
    rcases hc : getCell f m0.1.1 m0.1.2 with _ | p
    · constructor
      · rw [(ih pr).1]
        constructor
        · rintro (h | ⟨m2, hm2, h2⟩)
          · exact Or.inl h
          · exact Or.inr ⟨m2, List.mem_cons_of_mem _ hm2, h2⟩
        · rintro (h | ⟨m2, hm2, h2⟩)
          · exact Or.inl h
          · rcases List.mem_cons.1 hm2 with rfl | hm2
            · rw [hc] at h2
              cases h2
            · exact Or.inr ⟨m2, hm2, h2⟩
      · rw [(ih pr).2]
        constructor
        · rintro (h | ⟨m2, hm2, h2⟩)
          · exact Or.inl h
          · exact Or.inr ⟨m2, List.mem_cons_of_mem _ hm2, h2⟩
        · rintro (h | ⟨m2, hm2, h2⟩)
          · exact Or.inl h
          · rcases List.mem_cons.1 hm2 with rfl | hm2
            · rw [hc] at h2
              cases h2
            · exact Or.inr ⟨m2, hm2, h2⟩
    · cases p
      · constructor
        · rw [(ih (true, pr.2)).1]
          constructor
          · rintro (_ | ⟨m2, hm2, h2⟩)
            · exact Or.inr ⟨m0, List.mem_cons_self _ _, hc⟩
            · exact Or.inr ⟨m2, List.mem_cons_of_mem _ hm2, h2⟩
          · intro h
            exact Or.inl rfl
        · rw [(ih (true, pr.2)).2]
          constructor
          · rintro (h | ⟨m2, hm2, h2⟩)
            · exact Or.inl h
            · exact Or.inr ⟨m2, List.mem_cons_of_mem _ hm2, h2⟩
          · rintro (h | ⟨m2, hm2, h2⟩)
            · exact Or.inl h
            · rcases List.mem_cons.1 hm2 with rfl | hm2
              · rw [hc] at h2
                cases h2
              · exact Or.inr ⟨m2, hm2, h2⟩
      · constructor
        · rw [(ih (pr.1, true)).1]
          constructor
          · rintro (h | ⟨m2, hm2, h2⟩)
            · exact Or.inl h
            · exact Or.inr ⟨m2, List.mem_cons_of_mem _ hm2, h2⟩
          · rintro (h | ⟨m2, hm2, h2⟩)
            · exact Or.inl h
            · rcases List.mem_cons.1 hm2 with rfl | hm2
              · rw [hc] at h2
                cases h2
              · exact Or.inr ⟨m2, hm2, h2⟩
        · rw [(ih (pr.1, true)).2]
          constructor
          · rintro (_ | ⟨m2, hm2, h2⟩)
            · exact Or.inr ⟨m0, List.mem_cons_self _ _, hc⟩
            · exact Or.inr ⟨m2, List.mem_cons_of_mem _ hm2, h2⟩
          · intro h
            exact Or.inl rfl

theorem winnerFold_fst (f : GameField) (ms : List GameMatch) :
    (winnerFold f ms).1 = true ↔ ∃ m ∈ ms, getCell f m.1.1 m.1.2 = some Player.P1 := by
  unfold winnerFold
  rw [(winnerFold_spec f ms (false, false)).1]
  simp

theorem winnerFold_snd (f : GameField) (ms : List GameMatch) :
    (winnerFold f ms).2 = true ↔ ∃ m ∈ ms, getCell f m.1.1 m.1.2 = some Player.P2 := by
  unfold winnerFold
  rw [(winnerFold_spec f ms (false, false)).2]
  simp


/-- `GameWinner` corresponding to a `Player`. -/
def Player.toWinner : Player → GameWinner
  | .P1 => .P1
  | .P2 => .P2

theorem allMatches_ne_nil_of_hasSeg {f : GameField} {p : Player} (hw : Wf f)
    (h : HasSeg f p) : allMatches f ≠ [] := by
  obtain ⟨m, hm, _⟩ := hasSeg_match hw h
  intro hc
  rw [hc] at hm
  simp at hm

theorem hasSeg_of_flag1 {f : GameField}
    (h : (winnerFold f (allMatches f)).1 = true) : HasSeg f Player.P1 := by
  obtain ⟨m, hm, hc⟩ := (winnerFold_fst f (allMatches f)).1 h
  obtain ⟨p, hc2, hs⟩ := allMatches_sound hm
  rw [hc] at hc2
  cases hc2
  exact hs

theorem hasSeg_of_flag2 {f : GameField}
    (h : (winnerFold f (allMatches f)).2 = true) : HasSeg f Player.P2 := by
  obtain ⟨m, hm, hc⟩ := (winnerFold_snd f (allMatches f)).1 h
  obtain ⟨p, hc2, hs⟩ := allMatches_sound hm
  rw [hc] at hc2
  cases hc2
  exact hs

theorem get_result_flags_tt {f : GameField} {turn : Nat}
    (hne : allMatches f ≠ []) (hw : winnerFold f (allMatches f) = (true, true)) :
    get_result f turn = some ⟨.Draw, allMatches f⟩ := by
  unfold get_result
  rw [if_neg (by simpa using hne), hw]

theorem get_result_flags_tf {f : GameField} {turn : Nat}
    (hne : allMatches f ≠ []) (hw : winnerFold f (allMatches f) = (true, false)) :
    get_result f turn = some ⟨.P1, allMatches f⟩ := by
  unfold get_result
  rw [if_neg (by simpa using hne), hw]

theorem get_result_flags_ft {f : GameField} {turn : Nat}
    (hne : allMatches f ≠ []) (hw : winnerFold f (allMatches f) = (false, true)) :
    get_result f turn = some ⟨.P2, allMatches f⟩ := by
  unfold get_result
  rw [if_neg (by simpa using hne), hw]

theorem get_result_flags_ff {f : GameField} {turn : Nat}
    (hne : allMatches f ≠ []) (hw : winnerFold f (allMatches f) = (false, false)) :
    get_result f turn = none := by
  unfold get_result
  rw [if_neg (by simpa using hne), hw]

/-- `get_result` returns `none` exactly when the board has no run at all
and the board-full turn has not been reached. -/
theorem get_result_none_iff (f : GameField) (turn : Nat) (hwf : Wf f) :
    get_result f turn = none ↔ ¬ HasAnySeg f ∧ turn < LAST_TURN := by
  constructor
  · intro h
    by_cases hne : allMatches f = []
    · refine ⟨?_, ?_⟩
      · rintro ⟨p, hp⟩
        exact allMatches_ne_nil_of_hasSeg hwf hp hne
      · unfold get_result at h
        rw [if_pos (by simpa using hne)] at h
        by_contra hturn
        rw [if_pos (by omega)] at h
        cases h
    · exfalso
      have hm : ∃ m, m ∈ allMatches f := by
        cases hall : allMatches f with
        | nil => exact absurd hall hne
        | cons m ms => exact ⟨m, by simp [hall]⟩
      obtain ⟨m, hm⟩ := hm
      obtain ⟨p, hc, _⟩ := allMatches_sound hm
      rcases hfold : winnerFold f (allMatches f) with ⟨b1, b2⟩
      cases b1 <;> cases b2
      · cases p
        · have hx : (winnerFold f (allMatches f)).1 = true :=
            (winnerFold_fst f (allMatches f)).2 ⟨m, hm, hc⟩
          rw [hfold] at hx
          cases hx
        · have hx : (winnerFold f (allMatches f)).2 = true :=
            (winnerFold_snd f (allMatches f)).2 ⟨m, hm, hc⟩
          rw [hfold] at hx
          cases hx
      · rw [get_result_flags_ft hne hfold] at h
        cases h
      · rw [get_result_flags_tf hne hfold] at h
        cases h
      · rw [get_result_flags_tt hne hfold] at h
        cases h
  · rintro ⟨hno, hturn⟩
    have hnil : allMatches f = [] := by
      cases hall : allMatches f with
      | nil => rfl
      | cons m ms =>
        exfalso
        obtain ⟨p, _, hs⟩ := allMatches_sound (by rw [hall]; exact List.mem_cons_self m ms)
        exact hno ⟨p, hs⟩
    unfold get_result
    rw [if_pos (by simpa using hnil), if_neg (by omega)]

/-- `get_result` when exactly one player has a run: that player wins and
the collected matches are reported. -/
theorem get_result_winner_only (f : GameField) (turn : Nat) (p : Player) (hwf : Wf f)
    (h1 : HasSeg f p) (h2 : ¬ HasSeg f p.other) :
    get_result f turn = some ⟨p.toWinner, allMatches f⟩ := by
  have hne := allMatches_ne_nil_of_hasSeg hwf h1
  rcases hfold : winnerFold f (allMatches f) with ⟨b1, b2⟩
  obtain ⟨m, hm, hc⟩ := hasSeg_match hwf h1
  cases p
  · have hb1 : b1 = true := by
      have hx := (winnerFold_fst f (allMatches f)).2 ⟨m, hm, hc⟩
      rw [hfold] at hx
      exact hx
    have hb2 : b2 = false := by
      cases hb2 : b2
      · rfl
      · exfalso
        apply h2
        apply hasSeg_of_flag2
        rw [hfold, hb2]
    subst hb1
    subst hb2
    exact get_result_flags_tf hne hfold
  · have hb2 : b2 = true := by
      have hx := (winnerFold_snd f (allMatches f)).2 ⟨m, hm, hc⟩
      rw [hfold] at hx
      exact hx
    have hb1 : b1 = false := by
      cases hb1 : b1
      · rfl
      · exfalso
        apply h2
        apply hasSeg_of_flag1
        rw [hfold, hb1]
    subst hb1
    subst hb2
    exact get_result_flags_ft hne hfold

/-- `get_result` when both players have runs: a draw, with both players'
matches reported. -/
theorem get_result_winner_draw (f : GameField) (turn : Nat) (hwf : Wf f)
    (h1 : HasSeg f Player.P1) (h2 : HasSeg f Player.P2) :
    get_result f turn = some ⟨.Draw, allMatches f⟩ := by
  have hne := allMatches_ne_nil_of_hasSeg hwf h1
  rcases hfold : winnerFold f (allMatches f) with ⟨b1, b2⟩
  obtain ⟨m1, hm1, hc1⟩ := hasSeg_match hwf h1
  obtain ⟨m2, hm2, hc2⟩ := hasSeg_match hwf h2
  have hb1 : b1 = true := by
    have := (winnerFold_fst f (allMatches f)).2 ⟨m1, hm1, hc1⟩
    rw [hfold] at this
    exact this
  have hb2 : b2 = true := by
    have := (winnerFold_snd f (allMatches f)).2 ⟨m2, hm2, hc2⟩
    rw [hfold] at this
    exact this
  subst hb1
  subst hb2
  exact get_result_flags_tt hne hfold


theorem cntDown_ge (l : Nat → Option Player) (p : Player) :
    ∀ k x, k ≤ x → (∀ t, x - k ≤ t → t < x → l t = some p) → k ≤ cntDown l p x := by
  intro k
  induction k with
  | zero => intro x _ _; omega
  | succ k ih =>
    intro x hk hseg
    obtain ⟨x2, rfl⟩ : ∃ x2, x = x2 + 1 := ⟨x - 1, by omega⟩
    unfold cntDown
    rw [if_pos (hseg x2 (by omega) (by omega))]
    have := ih x2 (by omega) (fun t h1 h2 => hseg t (by omega) (by omega))
    omega

theorem cntDown_seg (l : Nat → Option Player) (p : Player) :
    ∀ x t, x - cntDown l p x ≤ t → t < x → l t = some p := by
  intro x
  induction x with
  | zero => intro t _ h; omega
  | succ x ih =>
    intro t h1 h2
    unfold cntDown at h1
    by_cases hp : l x = some p
    · rw [if_pos hp] at h1
      rcases Nat.lt_or_ge t x with h | h
      · exact ih t (by omega) h
      · have : t = x := by omega
        subst this
        exact hp
    · rw [if_neg hp] at h1
      omega

theorem cntDown_le (l : Nat → Option Player) (p : Player) :
    ∀ x, cntDown l p x ≤ x := by
  intro x
  induction x with
  | zero => simp [cntDown]
  | succ x ih =>
    unfold cntDown
    split <;> omega

theorem cntUpAux_ge (l : Nat → Option Player) (p : Player) :
    ∀ k fuel s, k ≤ fuel → (∀ t, s ≤ t → t < s + k → l t = some p) →
      k ≤ cntUpAux l p s fuel := by
  intro k
  induction k with
  | zero => intro fuel s _ _; omega
  | succ k ih =>
    intro fuel s hk hseg
    obtain ⟨f2, rfl⟩ : ∃ f2, fuel = f2 + 1 := ⟨fuel - 1, by omega⟩
    unfold cntUpAux
    rw [if_pos (hseg s (by omega) (by omega))]
    have := ih f2 (s + 1) (by omega) (fun t h1 h2 => hseg t (by omega) (by omega))
    omega

theorem cntUpAux_seg (l : Nat → Option Player) (p : Player) :
    ∀ fuel s t, s ≤ t → t < s + cntUpAux l p s fuel → l t = some p := by
  intro fuel
  induction fuel with
  | zero => intro s t _ h; unfold cntUpAux at h; omega
  | succ fuel ih =>
    intro s t h1 h2
    unfold cntUpAux at h2
    by_cases hp : l s = some p
    · rw [if_pos hp] at h2
      rcases Nat.eq_or_lt_of_le h1 with rfl | h
      · exact hp
      · exact ih (s + 1) t (by omega) (by omega)
    · rw [if_neg hp] at h2
      omega

theorem cntUpAux_le (l : Nat → Option Player) (p : Player) :
    ∀ fuel s, cntUpAux l p s fuel ≤ fuel := by
  intro fuel
  induction fuel with
  | zero => intro s; simp [cntUpAux]
  | succ fuel ih =>
    intro s
    unfold cntUpAux
    split
    · have := ih (s + 1)
      omega
    · omega

theorem dcDown_ge (f : GameField) (p : Player) :
    ∀ k x y, k ≤ x → k ≤ y →
      (∀ j, 1 ≤ j → j ≤ k → getCell f (x - j) (y - j) = some p) →
      k ≤ dcDown f p x y := by
  intro k
  induction k with
  | zero => intro x y _ _ _; omega
  | succ k ih =>
    intro x y hx hy hseg
    obtain ⟨x2, rfl⟩ : ∃ x2, x = x2 + 1 := ⟨x - 1, by omega⟩
    obtain ⟨y2, rfl⟩ : ∃ y2, y = y2 + 1 := ⟨y - 1, by omega⟩
    unfold dcDown
    rw [if_pos (by simpa using hseg 1 (by omega) (by omega))]
    have := ih x2 y2 (by omega) (by omega) (fun j h1 h2 => by
      have := hseg (j + 1) (by omega) (by omega)
      rwa [show x2 + 1 - (j + 1) = x2 - j by omega,
        show y2 + 1 - (j + 1) = y2 - j by omega] at this)
    omega

theorem dcDown_seg (f : GameField) (p : Player) :
    ∀ x y j, 1 ≤ j → j ≤ dcDown f p x y → getCell f (x - j) (y - j) = some p := by
  intro x
  induction x with
  | zero => intro y j _ h; simp only [dcDown] at h; omega
  | succ x ih =>
    intro y j h1 h2
    cases y with
    | zero => simp only [dcDown] at h2; omega
    | succ y =>
      unfold dcDown at h2
      by_cases hp : getCell f x y = some p
      · rw [if_pos hp] at h2
        rcases Nat.eq_or_lt_of_le h1 with rfl | h
        · simpa using hp
        · have := ih y (j - 1) (by omega) (by omega)
          rwa [show x - (j - 1) = x + 1 - j by omega,
            show y - (j - 1) = y + 1 - j by omega] at this
      · rw [if_neg hp] at h2
        omega

theorem dcDown_le (f : GameField) (p : Player) :
    ∀ x y, dcDown f p x y ≤ x ∧ dcDown f p x y ≤ y := by
  intro x
  induction x with
  | zero => intro y; unfold dcDown; simp
  | succ x ih =>
    intro y
    cases y with
    | zero => unfold dcDown; simp
    | succ y =>
      unfold dcDown
      split
      · have := ih y
        omega
      · omega

theorem dcUpAux_ge (f : GameField) (p : Player) :
    ∀ k fuel x y, k ≤ fuel →
      (∀ j, 1 ≤ j → j ≤ k → getCell f (x + j) (y + j) = some p) →
      k ≤ dcUpAux f p x y fuel := by
  intro k
  induction k with
  | zero => intro fuel x y _ _; omega
  | succ k ih =>
    intro fuel x y hk hseg
    obtain ⟨f2, rfl⟩ : ∃ f2, fuel = f2 + 1 := ⟨fuel - 1, by omega⟩
    unfold dcUpAux
    rw [if_pos (by simpa using hseg 1 (by omega) (by omega))]
    have := ih f2 (x + 1) (y + 1) (by omega) (fun j h1 h2 => by
      have := hseg (j + 1) (by omega) (by omega)
      rwa [show x + (j + 1) = x + 1 + j by omega,
        show y + (j + 1) = y + 1 + j by omega] at this)
    omega

theorem dcUpAux_seg (f : GameField) (p : Player) :
    ∀ fuel x y j, 1 ≤ j → j ≤ dcUpAux f p x y fuel →
      getCell f (x + j) (y + j) = some p := by
  intro fuel
  induction fuel with
  | zero => intro x y j _ h; unfold dcUpAux at h; omega
  | succ fuel ih =>
    intro x y j h1 h2
    unfold dcUpAux at h2
    by_cases hp : getCell f (x + 1) (y + 1) = some p
    · rw [if_pos hp] at h2
      rcases Nat.eq_or_lt_of_le h1 with rfl | h
      · simpa using hp
      · have := ih (x + 1) (y + 1) (j - 1) (by omega) (by omega)
        rwa [show x + 1 + (j - 1) = x + j by omega,
          show y + 1 + (j - 1) = y + j by omega] at this
    · rw [if_neg hp] at h2
      omega

theorem dcXupYdnAux_ge (f : GameField) (p : Player) :
    ∀ k fuel x y, k ≤ fuel → k ≤ y →
      (∀ j, 1 ≤ j → j ≤ k → getCell f (x + j) (y - j) = some p) →
      k ≤ dcXupYdnAux f p x y fuel := by
  intro k
  induction k with
  | zero => intro fuel x y _ _ _; omega
  | succ k ih =>
    intro fuel x y hk hy hseg
    obtain ⟨f2, rfl⟩ : ∃ f2, fuel = f2 + 1 := ⟨fuel - 1, by omega⟩
    obtain ⟨y2, rfl⟩ : ∃ y2, y = y2 + 1 := ⟨y - 1, by omega⟩
    unfold dcXupYdnAux
    rw [if_pos (by simpa using hseg 1 (by omega) (by omega))]
    have := ih f2 (x + 1) y2 (by omega) (by omega) (fun j h1 h2 => by
      have := hseg (j + 1) (by omega) (by omega)
      rwa [show x + (j + 1) = x + 1 + j by omega,
        show y2 + 1 - (j + 1) = y2 - j by omega] at this)
    omega

theorem dcXupYdnAux_seg (f : GameField) (p : Player) :
    ∀ fuel x y j, 1 ≤ j → j ≤ dcXupYdnAux f p x y fuel →
      getCell f (x + j) (y - j) = some p := by
  intro fuel
  induction fuel with
  | zero => intro x y j _ h; simp only [dcXupYdnAux] at h; omega
  | succ fuel ih =>
    intro x y j h1 h2
    cases y with
    | zero => simp only [dcXupYdnAux] at h2; omega
    | succ y =>
      unfold dcXupYdnAux at h2
      by_cases hp : getCell f (x + 1) y = some p
      · rw [if_pos hp] at h2
        rcases Nat.eq_or_lt_of_le h1 with rfl | h
        · simpa using hp
        · have := ih (x + 1) y (j - 1) (by omega) (by omega)
          rwa [show x + 1 + (j - 1) = x + j by omega,
            show y - (j - 1) = y + 1 - j by omega] at this
      · rw [if_neg hp] at h2
        omega

theorem dcXupYdnAux_le (f : GameField) (p : Player) :
    ∀ fuel x y, dcXupYdnAux f p x y fuel ≤ fuel ∧ dcXupYdnAux f p x y fuel ≤ y := by
  intro fuel
  induction fuel with
  | zero => intro x y; unfold dcXupYdnAux; simp
  | succ fuel ih =>
    intro x y
    cases y with
    | zero => unfold dcXupYdnAux; simp
    | succ y =>
      unfold dcXupYdnAux
      split
      · have := ih (x + 1) y
        omega
      · omega

theorem dcXdnYupAux_ge (f : GameField) (p : Player) :
    ∀ k fuel x y, k ≤ fuel → k ≤ x →
      (∀ j, 1 ≤ j → j ≤ k → getCell f (x - j) (y + j) = some p) →
      k ≤ dcXdnYupAux f p x y fuel := by
  intro k
  induction k with
  | zero => intro fuel x y _ _ _; omega
  | succ k ih =>
    intro fuel x y hk hx hseg
    obtain ⟨f2, rfl⟩ : ∃ f2, fuel = f2 + 1 := ⟨fuel - 1, by omega⟩
    obtain ⟨x2, rfl⟩ : ∃ x2, x = x2 + 1 := ⟨x - 1, by omega⟩
    unfold dcXdnYupAux
    rw [if_pos (by simpa using hseg 1 (by omega) (by omega))]
    have := ih f2 x2 (y + 1) (by omega) (by omega) (fun j h1 h2 => by
      have := hseg (j + 1) (by omega) (by omega)
      rwa [show x2 + 1 - (j + 1) = x2 - j by omega,
        show y + (j + 1) = y + 1 + j by omega] at this)
    omega

theorem dcXdnYupAux_seg (f : GameField) (p : Player) :
    ∀ fuel x y j, 1 ≤ j → j ≤ dcXdnYupAux f p x y fuel →
      getCell f (x - j) (y + j) = some p := by
  intro fuel
  induction fuel with
  | zero => intro x y j _ h; simp only [dcXdnYupAux] at h; omega
  | succ fuel ih =>
    intro x y j h1 h2
    cases x with
    | zero => simp only [dcXdnYupAux] at h2; omega
    | succ x =>
      unfold dcXdnYupAux at h2
      by_cases hp : getCell f x (y + 1) = some p
      · rw [if_pos hp] at h2
        rcases Nat.eq_or_lt_of_le h1 with rfl | h
        · simpa using hp
        · have := ih x (y + 1) (j - 1) (by omega) (by omega)
          rwa [show x - (j - 1) = x + 1 - j by omega,
            show y + 1 + (j - 1) = y + j by omega] at this
      · rw [if_neg hp] at h2
        omega

theorem dcXdnYupAux_le (f : GameField) (p : Player) :
    ∀ fuel x y, dcXdnYupAux f p x y fuel ≤ fuel ∧ dcXdnYupAux f p x y fuel ≤ x := by
  intro fuel
  induction fuel with
  | zero => intro x y; unfold dcXdnYupAux; simp
  | succ fuel ih =>
    intro x y
    cases x with
    | zero => unfold dcXdnYupAux; simp
    | succ x =>
      unfold dcXdnYupAux
      split
      · have := ih x (y + 1)
        omega
      · omega


theorem segThrough_h_of_len (f : GameField) (x y : Nat) (p : Player)
    (hc : getCell f x y = some p) (h : WIN_LEN ≤ len_horizontal f x y p) :
    ∃ x0, segH f p x0 y ∧ x0 ≤ x ∧ x < x0 + WIN_LEN := by
  have hW : WIN_LEN = 4 := rfl
  unfold len_horizontal at h
  obtain ⟨cd, hcd⟩ : ∃ v, cntDown (fun t => getCell f t y) p x = v := ⟨_, rfl⟩
  obtain ⟨cu, hcu⟩ : ∃ v,
      cntUpAux (fun t => getCell f t y) p (x + 1) (FIELD_SIZE - (x + 1)) = v := ⟨_, rfl⟩
  rw [hcd, hcu] at h
  have hdseg := cntDown_seg (fun t => getCell f t y) p x
  rw [hcd] at hdseg
  have huseg := cntUpAux_seg (fun t => getCell f t y) p (FIELD_SIZE - (x + 1)) (x + 1)
  rw [hcu] at huseg
  have hcdle : cd ≤ x := by rw [← hcd]; exact cntDown_le _ _ x
  refine ⟨x - min cd 3, ?_, by omega, by omega⟩
  intro t ht
  rw [hW] at ht
  rw [hW] at h
  rcases Nat.lt_trichotomy (x - min cd 3 + t) x with hlt | heq | hgt
  · exact hdseg _ (by omega) hlt
  · rw [heq]; exact hc
  · exact huseg _ (by omega) (by omega)

theorem len_of_segH (f : GameField) (x y x0 : Nat) (p : Player) (hw : Wf f)
    (hs : segH f p x0 y) (h1 : x0 ≤ x) (h2 : x < x0 + WIN_LEN) :
    WIN_LEN ≤ len_horizontal f x y p := by
  have hW : WIN_LEN = 4 := rfl
  have hF : FIELD_SIZE = 7 := rfl
  have hx0 : x0 + 3 < FIELD_SIZE :=
    (getCell_lt_of_wf hw (hs 3 (by omega))).1
  have hcd : x - x0 ≤ cntDown (fun t => getCell f t y) p x :=
    cntDown_ge _ p (x - x0) x (by omega) (fun t ht1 ht2 => by
      have := hs (t - x0) (by omega)
      rwa [show x0 + (t - x0) = t by omega] at this)
  have hcu : x0 + 3 - x ≤ cntUpAux (fun t => getCell f t y) p (x + 1) (FIELD_SIZE - (x + 1)) :=
    cntUpAux_ge _ p (x0 + 3 - x) (FIELD_SIZE - (x + 1)) (x + 1) (by omega)
      (fun t ht1 ht2 => by
        have := hs (t - x0) (by omega)
        rwa [show x0 + (t - x0) = t by omega] at this)
  unfold len_horizontal
  omega

theorem segThrough_v_of_len (f : GameField) (x y : Nat) (p : Player)
    (hc : getCell f x y = some p) (h : WIN_LEN ≤ len_vertical f x y p) :
    ∃ y0, segV f p x y0 ∧ y0 ≤ y ∧ y < y0 + WIN_LEN := by
  have hW : WIN_LEN = 4 := rfl
  unfold len_vertical at h
  obtain ⟨cd, hcd⟩ : ∃ v, cntDown (fun t => getCell f x t) p y = v := ⟨_, rfl⟩
  obtain ⟨cu, hcu⟩ : ∃ v,
      cntUpAux (fun t => getCell f x t) p (y + 1) (FIELD_SIZE - (y + 1)) = v := ⟨_, rfl⟩
  rw [hcd, hcu] at h
  have hdseg := cntDown_seg (fun t => getCell f x t) p y
  rw [hcd] at hdseg
  have huseg := cntUpAux_seg (fun t => getCell f x t) p (FIELD_SIZE - (y + 1)) (y + 1)
  rw [hcu] at huseg
  have hcdle : cd ≤ y := by rw [← hcd]; exact cntDown_le _ _ y
  refine ⟨y - min cd 3, ?_, by omega, by omega⟩
  intro t ht
  rw [hW] at ht
  rw [hW] at h
  rcases Nat.lt_trichotomy (y - min cd 3 + t) y with hlt | heq | hgt
  · exact hdseg _ (by omega) hlt
  · rw [heq]; exact hc
  · exact huseg _ (by omega) (by omega)

theorem len_of_segV (f : GameField) (x y y0 : Nat) (p : Player) (hw : Wf f)
    (hs : segV f p x y0) (h1 : y0 ≤ y) (h2 : y < y0 + WIN_LEN) :
    WIN_LEN ≤ len_vertical f x y p := by
  have hW : WIN_LEN = 4 := rfl
  have hF : FIELD_SIZE = 7 := rfl
  have hy0 : y0 + 3 < FIELD_SIZE :=
    (getCell_lt_of_wf hw (hs 3 (by omega))).2
  have hcd : y - y0 ≤ cntDown (fun t => getCell f x t) p y :=
    cntDown_ge _ p (y - y0) y (by omega) (fun t ht1 ht2 => by
      have := hs (t - y0) (by omega)
      rwa [show y0 + (t - y0) = t by omega] at this)
  have hcu : y0 + 3 - y ≤ cntUpAux (fun t => getCell f x t) p (y + 1) (FIELD_SIZE - (y + 1)) :=
    cntUpAux_ge _ p (y0 + 3 - y) (FIELD_SIZE - (y + 1)) (y + 1) (by omega)
      (fun t ht1 ht2 => by
        have := hs (t - y0) (by omega)
        rwa [show y0 + (t - y0) = t by omega] at this)
  unfold len_vertical
  omega

theorem segThrough_d1_of_len (f : GameField) (x y : Nat) (p : Player)
    (hc : getCell f x y = some p) (h : WIN_LEN ≤ len_diagonal_tl_br f x y p) :
    ∃ x0 y0 t0, t0 < WIN_LEN ∧ x = x0 + t0 ∧ y = y0 + t0 ∧ segD1 f p x0 y0 := by
  have hW : WIN_LEN = 4 := rfl
  unfold len_diagonal_tl_br at h
  obtain ⟨dd, hdd⟩ : ∃ v, dcDown f p x y = v := ⟨_, rfl⟩
  obtain ⟨du, hdu⟩ : ∃ v, dcUpAux f p x y (FIELD_SIZE - max x y - 1) = v := ⟨_, rfl⟩
  rw [hdd, hdu] at h
  have hdseg := dcDown_seg f p x y
  rw [hdd] at hdseg
  have huseg := dcUpAux_seg f p (FIELD_SIZE - max x y - 1) x y
  rw [hdu] at huseg
  have hddle := dcDown_le f p x y
  rw [hdd] at hddle
  refine ⟨x - min dd 3, y - min dd 3, min dd 3, by omega, by omega, by omega, ?_⟩
  intro t ht
  rw [hW] at ht
  rw [hW] at h
  rcases Nat.lt_trichotomy t (min dd 3) with hlt | heq | hgt
  · have := hdseg (min dd 3 - t) (by omega) (by omega)
    rwa [show x - (min dd 3 - t) = x - min dd 3 + t by omega,
      show y - (min dd 3 - t) = y - min dd 3 + t by omega] at this
  · rw [heq, show x - min dd 3 + min dd 3 = x by omega,
      show y - min dd 3 + min dd 3 = y by omega]
    exact hc
  · have := huseg (t - min dd 3) (by omega) (by omega)
    rwa [show x + (t - min dd 3) = x - min dd 3 + t by omega,
      show y + (t - min dd 3) = y - min dd 3 + t by omega] at this

theorem len_of_segD1 (f : GameField) (x y x0 y0 t0 : Nat) (p : Player) (hw : Wf f)
    (hs : segD1 f p x0 y0) (ht : t0 < WIN_LEN) (hx : x = x0 + t0) (hy : y = y0 + t0) :
    WIN_LEN ≤ len_diagonal_tl_br f x y p := by
  have hW : WIN_LEN = 4 := rfl
  have hF : FIELD_SIZE = 7 := rfl
  have hb := getCell_lt_of_wf hw (hs 3 (by omega))
  have hdd : t0 ≤ dcDown f p x y :=
    dcDown_ge f p t0 x y (by omega) (by omega) (fun j h1 h2 => by
      have := hs (t0 - j) (by omega)
      rwa [show x0 + (t0 - j) = x - j by omega,
        show y0 + (t0 - j) = y - j by omega] at this)
  have hdu : 3 - t0 ≤ dcUpAux f p x y (FIELD_SIZE - max x y - 1) :=
    dcUpAux_ge f p (3 - t0) (FIELD_SIZE - max x y - 1) x y (by omega)
      (fun j h1 h2 => by
        have := hs (t0 + j) (by omega)
        rwa [show x0 + (t0 + j) = x + j by omega,
          show y0 + (t0 + j) = y + j by omega] at this)
  unfold len_diagonal_tl_br
  omega

theorem segThrough_d2_of_len (f : GameField) (x y : Nat) (p : Player)
    (hc : getCell f x y = some p) (h : WIN_LEN ≤ len_diagonal_tr_bl f x y p) :
    ∃ x0 y0 t0, t0 < WIN_LEN ∧ x + t0 = x0 ∧ y = y0 + t0 ∧ segD2 f p x0 y0 := by
  have hW : WIN_LEN = 4 := rfl
  have hF : FIELD_SIZE = 7 := rfl
  unfold len_diagonal_tr_bl at h
  obtain ⟨a, ha⟩ : ∃ v, dcXupYdnAux f p x y (min y (FIELD_SIZE - 1 - x)) = v := ⟨_, rfl⟩
  obtain ⟨b, hb⟩ : ∃ v, dcXdnYupAux f p x y (min x (FIELD_SIZE - 1 - y)) = v := ⟨_, rfl⟩
  rw [ha, hb] at h
  have haseg := dcXupYdnAux_seg f p (min y (FIELD_SIZE - 1 - x)) x y
  rw [ha] at haseg
  have hbseg := dcXdnYupAux_seg f p (min x (FIELD_SIZE - 1 - y)) x y
  rw [hb] at hbseg
  have hale := dcXupYdnAux_le f p (min y (FIELD_SIZE - 1 - x)) x y
  rw [ha] at hale
  have hble := dcXdnYupAux_le f p (min x (FIELD_SIZE - 1 - y)) x y
  rw [hb] at hble
  refine ⟨x + min a 3, y - min a 3, min a 3, by omega, by omega, by omega, ?_⟩
  refine ⟨by omega, ?_⟩
  intro t ht
  rw [hW] at ht
  rw [hW] at h
  rcases Nat.lt_trichotomy t (min a 3) with hlt | heq | hgt
  · have := haseg (min a 3 - t) (by omega) (by omega)
    rwa [show x + (min a 3 - t) = x + min a 3 - t by omega,
      show y - (min a 3 - t) = y - min a 3 + t by omega] at this
  · rw [heq, show x + min a 3 - min a 3 = x by omega,
      show y - min a 3 + min a 3 = y by omega]
    exact hc
  · have := hbseg (t - min a 3) (by omega) (by omega)
    rwa [show x - (t - min a 3) = x + min a 3 - t by omega,
      show y + (t - min a 3) = y - min a 3 + t by omega] at this

theorem len_of_segD2 (f : GameField) (x y x0 y0 t0 : Nat) (p : Player) (hw : Wf f)
    (hs : segD2 f p x0 y0) (ht : t0 < WIN_LEN) (hx : x + t0 = x0) (hy : y = y0 + t0) :
    WIN_LEN ≤ len_diagonal_tr_bl f x y p := by
  have hW : WIN_LEN = 4 := rfl
  have hF : FIELD_SIZE = 7 := rfl
  obtain ⟨hx0, hcells⟩ := hs
  have hb0 := getCell_lt_of_wf hw (hcells 0 (by omega))
  have hb3 := getCell_lt_of_wf hw (hcells 3 (by omega))
  have ha : t0 ≤ dcXupYdnAux f p x y (min y (FIELD_SIZE - 1 - x)) :=
    dcXupYdnAux_ge f p t0 (min y (FIELD_SIZE - 1 - x)) x y (by omega) (by omega)
      (fun j h1 h2 => by
        have := hcells (t0 - j) (by omega)
        rwa [show x0 - (t0 - j) = x + j by omega,
          show y0 + (t0 - j) = y - j by omega] at this)
  have hbb : 3 - t0 ≤ dcXdnYupAux f p x y (min x (FIELD_SIZE - 1 - y)) :=
    dcXdnYupAux_ge f p (3 - t0) (min x (FIELD_SIZE - 1 - y)) x y (by omega) (by omega)
      (fun j h1 h2 => by
        have := hcells (t0 + j) (by omega)
        rwa [show x0 - (t0 + j) = x - j by omega,
          show y0 + (t0 + j) = y + j by omega] at this)
  unfold len_diagonal_tr_bl
  omega

/-- The four seg shapes passing through a fixed cell `(x, y)`. -/
def SegThrough (f : GameField) (p : Player) (x y : Nat) : Prop :=
  (∃ x0, segH f p x0 y ∧ x0 ≤ x ∧ x < x0 + WIN_LEN) ∨
  (∃ y0, segV f p x y0 ∧ y0 ≤ y ∧ y < y0 + WIN_LEN) ∨
  (∃ x0 y0 t0, t0 < WIN_LEN ∧ x = x0 + t0 ∧ y = y0 + t0 ∧ segD1 f p x0 y0) ∨
  (∃ x0 y0 t0, t0 < WIN_LEN ∧ x + t0 = x0 ∧ y = y0 + t0 ∧ segD2 f p x0 y0)

theorem is_move_winning_iff (f : GameField) (x y : Nat) (p : Player)
    (hw : Wf f) (hc : getCell f x y = some p) :
    is_move_winning f x y p = true ↔ SegThrough f p x y := by
  unfold is_move_winning SegThrough
  simp only [Bool.or_eq_true, decide_eq_true_eq]
  constructor
  · rintro (((h | h) | h) | h)
    · exact Or.inl (segThrough_h_of_len f x y p hc h)
    · exact Or.inr (Or.inl (segThrough_v_of_len f x y p hc h))
    · exact Or.inr (Or.inr (Or.inl (segThrough_d1_of_len f x y p hc h)))
    · exact Or.inr (Or.inr (Or.inr (segThrough_d2_of_len f x y p hc h)))
  · rintro (⟨x0, hs, h1, h2⟩ | ⟨y0, hs, h1, h2⟩ |
      ⟨x0, y0, t0, ht, hx, hy, hs⟩ | ⟨x0, y0, t0, ht, hx, hy, hs⟩)
    · exact Or.inl (Or.inl (Or.inl (len_of_segH f x y x0 p hw hs h1 h2)))
    · exact Or.inl (Or.inl (Or.inr (len_of_segV f x y y0 p hw hs h1 h2)))
    · exact Or.inl (Or.inr (len_of_segD1 f x y x0 y0 t0 p hw hs ht hx hy))
    · exact Or.inr (len_of_segD2 f x y x0 y0 t0 p hw hs ht hx hy)

theorem hasSeg_of_segThrough {f : GameField} {p : Player} {x y : Nat}
    (h : SegThrough f p x y) : HasSeg f p := by
  rcases h with ⟨x0, hs, _⟩ | ⟨y0, hs, _⟩ | ⟨x0, y0, t0, _, _, _, hs⟩ |
    ⟨x0, y0, t0, _, _, _, hs⟩
  · exact Or.inl ⟨x0, y, hs⟩
  · exact Or.inr (Or.inl ⟨x, y0, hs⟩)
  · exact Or.inr (Or.inr (Or.inl ⟨x0, y0, hs⟩))
  · exact Or.inr (Or.inr (Or.inr ⟨x0, y0, hs⟩))


theorem segThrough_cell {f : GameField} {p : Player} {x y : Nat}
    (h : SegThrough f p x y) : getCell f x y = some p := by
  have hW : WIN_LEN = 4 := rfl
  rcases h with ⟨x0, hs, h1, h2⟩ | ⟨y0, hs, h1, h2⟩ |
    ⟨x0, y0, t0, ht, hx, hy, hs⟩ | ⟨x0, y0, t0, ht, hx, hy, hs⟩
  · have := hs (x - x0) (by omega)
    rwa [show x0 + (x - x0) = x by omega] at this
  · have := hs (y - y0) (by omega)
    rwa [show y0 + (y - y0) = y by omega] at this
  · have := hs t0 ht
    rw [← hx, ← hy] at this
    exact this
  · obtain ⟨hx0, hcells⟩ := hs
    have := hcells t0 ht
    rwa [show x0 - t0 = x by omega, ← hy] at this

theorem hasSeg_elim_setCell (x y : Nat) {f : GameField} {q : Player}
    (h : HasSeg f q) :
    SegThrough f q x y ∨ HasSeg (setCell f x y none) q := by
  have hW : WIN_LEN = 4 := rfl
  rcases h with ⟨x0, y0, hs⟩ | ⟨x0, y0, hs⟩ | ⟨x0, y0, hs⟩ | ⟨x0, y0, hs⟩
  · by_cases hcont : y0 = y ∧ x0 ≤ x ∧ x < x0 + WIN_LEN
    · exact Or.inl (Or.inl ⟨x0, hcont.1 ▸ hs, hcont.2.1, hcont.2.2⟩)
    · refine Or.inr (Or.inl ⟨x0, y0, fun t ht => ?_⟩)
      rw [getCell_setCell_ne f none ?_]
      · exact hs t ht
      · rintro ⟨ha, hb⟩
        exact hcont ⟨hb, by omega, by omega⟩
  · by_cases hcont : x0 = x ∧ y0 ≤ y ∧ y < y0 + WIN_LEN
    · exact Or.inl (Or.inr (Or.inl ⟨y0, hcont.1 ▸ hs, hcont.2.1, hcont.2.2⟩))
    · refine Or.inr (Or.inr (Or.inl ⟨x0, y0, fun t ht => ?_⟩))
      rw [getCell_setCell_ne f none ?_]
      · exact hs t ht
      · rintro ⟨ha, hb⟩
        exact hcont ⟨ha, by omega, by omega⟩
  · by_cases hcont : ∃ t0, t0 < WIN_LEN ∧ x = x0 + t0 ∧ y = y0 + t0
    · obtain ⟨t0, ht, hx, hy⟩ := hcont
      exact Or.inl (Or.inr (Or.inr (Or.inl ⟨x0, y0, t0, ht, hx, hy, hs⟩)))
    · refine Or.inr (Or.inr (Or.inr (Or.inl ⟨x0, y0, fun t ht => ?_⟩)))
      rw [getCell_setCell_ne f none ?_]
      · exact hs t ht
      · rintro ⟨ha, hb⟩
        exact hcont ⟨t, ht, ha.symm, hb.symm⟩
  · obtain ⟨hx0, hcells⟩ := hs
    by_cases hcont : ∃ t0, t0 < WIN_LEN ∧ x + t0 = x0 ∧ y = y0 + t0
    · obtain ⟨t0, ht, hx, hy⟩ := hcont
      exact Or.inl (Or.inr (Or.inr (Or.inr ⟨x0, y0, t0, ht, hx, hy, hx0, hcells⟩)))
    · refine Or.inr (Or.inr (Or.inr (Or.inr ⟨x0, y0, hx0, fun t ht => ?_⟩)))
      rw [getCell_setCell_ne f none ?_]
      · exact hcells t ht
      · rintro ⟨ha, hb⟩
        exact hcont ⟨t, ht, by omega, hb.symm⟩

theorem get_result_isSome_of_ne_nil (f : GameField) (turn : Nat)
    (h : allMatches f ≠ []) : (get_result f turn).isSome = true := by
  unfold get_result
  rw [if_neg (by simpa using h)]
  obtain ⟨m, hm⟩ := List.exists_mem_of_ne_nil _ h
  obtain ⟨p, hc, _⟩ := allMatches_sound hm
  rcases hfold : winnerFold f (allMatches f) with ⟨b1, b2⟩
  cases b1 <;> cases b2 <;> try simp
  exfalso
  cases p
  · have hx : (winnerFold f (allMatches f)).1 = true :=
      (winnerFold_fst f (allMatches f)).2 ⟨m, hm, hc⟩
    rw [hfold] at hx
    cases hx
  · have hx : (winnerFold f (allMatches f)).2 = true :=
      (winnerFold_snd f (allMatches f)).2 ⟨m, hm, hc⟩
    rw [hfold] at hx
    cases hx

theorem noSeg_of_get_result_none {f : GameField} (hw : Wf f)
    (h : get_result f 0 = none) : ¬ HasAnySeg f :=
  ((get_result_none_iff f 0 hw).mp h).1

theorem find_top_spec {f : GameField} {col : Nat} {p : Player} :
    ∀ {fuel s i : Nat}, find_top f col p fuel s = some i →
      getCell f col i = some p := by
  intro fuel
  induction fuel with
  | zero => intro s i h; simp [find_top] at h
  | succ k ih =>
    intro s i h
    unfold find_top at h
    by_cases hc : getCell f col s = some p
    · rw [if_pos hc] at h
      cases h
      exact hc
    · rw [if_neg hc] at h
      exact ih h

theorem update_result_isSome (f : GameField) (rules : GameRules) (st : GameState)
    (x y : Nat) (hw : Wf f) (hcell : getCell f x y = some st.player) :
    update_result f rules st x y ≠ none := by
  unfold update_result
  split
  · simp
  · split
    · simp
    · split
      · rename_i hor
        rw [Bool.or_eq_true] at hor
        have hne : allMatches f ≠ [] := by
          rcases hor with hskip | hwin
          · unfold skipCheck at hskip
            split at hskip
            · split at hskip
              · rename_i col2 _
                split at hskip
                · rename_i i2 hft
                  have hc2 := find_top_spec hft
                  exact allMatches_ne_nil_of_hasSeg hw (hasSeg_of_segThrough
                    ((is_move_winning_iff f col2 i2 st.player.other hw hc2).mp hskip))
                · cases hskip
              · cases hskip
            · cases hskip
          · exact allMatches_ne_nil_of_hasSeg hw (hasSeg_of_segThrough
              ((is_move_winning_iff f x y st.player hw hcell).mp hwin))
        cases hg : get_result f st.turn with
        | none =>
          have := get_result_isSome_of_ne_nil f st.turn hne
          rw [hg] at this
          cases this
        | some r => simp
      · simp

/-- C5: single-move equivalence of the incremental and the full check.  For a
well-formed board whose just-placed cell `(x, y)` holds `p` and which has no
4-in-a-row once that cell is erased, `Game::is_move_winning` on the placed
cell returns `true` exactly when the full scan `get_result` performs finds at
least one maximal run of length ≥ 4 (`allMatches` nonempty). -/
theorem incremental_full_equiv (f : GameField) (x y : Nat) (p : Player)
    (hw : Wf f) (hc : getCell f x y = some p)
    (hno : ¬ HasAnySeg (setCell f x y none)) :
    (is_move_winning f x y p = true ↔ allMatches f ≠ []) := by
  constructor
  · intro h
    exact allMatches_ne_nil_of_hasSeg hw
      (hasSeg_of_segThrough ((is_move_winning_iff f x y p hw hc).mp h))
  · intro h
    obtain ⟨m, hm⟩ := List.exists_mem_of_ne_nil _ h
    obtain ⟨q, hcq, hsq⟩ := allMatches_sound hm
    rcases hasSeg_elim_setCell x y hsq with hthr | hsurv
    · have hcell := segThrough_cell hthr
      rw [hc] at hcell
      have hqp : q = p := by injection hcell with h2; exact h2.symm
      subst hqp
      exact (is_move_winning_iff f x y q hw hc).mpr hthr
    · exact absurd ⟨q, hsurv⟩ hno

theorem incremental_full_equiv_witness :
    Wf wonGame.field ∧ getCell wonGame.field 6 6 = some Player.P1 ∧
      ¬ HasAnySeg (setCell wonGame.field 6 6 none) ∧
      (is_move_winning wonGame.field 6 6 Player.P1 = true ↔
        allMatches wonGame.field ≠ []) := by
  have hw : Wf wonGame.field := by constructor <;> decide
  have hno : ¬ HasAnySeg (setCell wonGame.field 6 6 none) :=
    noSeg_of_get_result_none (wf_setCell hw 6 6 none) (by decide)
  exact ⟨hw, by decide, hno,
    incremental_full_equiv wonGame.field 6 6 Player.P1 hw (by decide) hno⟩

/-- C10: the `unwrap` in `Game::update_result` never panics.  For every
reachable game, `end_turn` never hits the modelled panic (`none`): whenever
one of the incremental checks fires, the cell it fired on is occupied, so the
full scan returns `Some`. -/
theorem end_turn_no_panic (g : Game) (col : Nat) (h : Reachable g) :
    end_turn g col ≠ none := by
  obtain ⟨hw, _, _, _⟩ := reachable_engineInv h
  unfold end_turn
  split
  · simp
  · split
    · simp
    · rename_i hcol hres
      split
      · rename_i i hf
        have hcol7 : col < FIELD_SIZE := by
          have := hw.1
          omega
        have hi7 : i < FIELD_SIZE := by
          have := (findPlacement_spec hf).1
          omega
        split
        · simp
        · rename_i hupd
          exact absurd hupd (update_result_isSome _ g.rules g.state col i
            (wf_setCell hw col i _)
            (getCell_setCell_same hw hcol7 hi7 _))
      · simp

theorem end_turn_no_panic_witness : end_turn sampleGame 0 ≠ none :=
  end_turn_no_panic sampleGame 0 ⟨sampleRules, [3, 3, 4, 4], by decide⟩


theorem hasSeg_congr {f1 f2 : GameField} {p : Player}
    (hpt : ∀ a b, getCell f1 a b = getCell f2 a b) (h : HasSeg f1 p) :
    HasSeg f2 p := by
  rcases h with ⟨x0, y0, hs⟩ | ⟨x0, y0, hs⟩ | ⟨x0, y0, hs⟩ | ⟨x0, y0, hs⟩
  · exact Or.inl ⟨x0, y0, fun t ht => (hpt _ _).symm.trans (hpt _ _ ▸ hs t ht)⟩
  · exact Or.inr (Or.inl ⟨x0, y0, fun t ht => hpt _ _ ▸ hs t ht⟩)
  · exact Or.inr (Or.inr (Or.inl ⟨x0, y0, fun t ht => hpt _ _ ▸ hs t ht⟩))
  · exact Or.inr (Or.inr (Or.inr ⟨x0, y0, hs.1, fun t ht => hpt _ _ ▸ hs.2 t ht⟩))

theorem segThrough_mono {f1 f2 : GameField} {q : Player} {x y : Nat}
    (hpt : ∀ a b, getCell f1 a b = some q → getCell f2 a b = some q)
    (h : SegThrough f1 q x y) : SegThrough f2 q x y := by
  rcases h with ⟨x0, hs, h1, h2⟩ | ⟨y0, hs, h1, h2⟩ |
    ⟨x0, y0, t0, ht, hx, hy, hs⟩ | ⟨x0, y0, t0, ht, hx, hy, hs⟩
  · exact Or.inl ⟨x0, fun t ht => hpt _ _ (hs t ht), h1, h2⟩
  · exact Or.inr (Or.inl ⟨y0, fun t ht => hpt _ _ (hs t ht), h1, h2⟩)
  · exact Or.inr (Or.inr (Or.inl ⟨x0, y0, t0, ht, hx, hy,
      fun t ht2 => hpt _ _ (hs t ht2)⟩))
  · exact Or.inr (Or.inr (Or.inr ⟨x0, y0, t0, ht, hx, hy, hs.1,
      fun t ht2 => hpt _ _ (hs.2 t ht2)⟩))

theorem find_top_congr {f1 f2 : GameField} {col : Nat} {p : Player}
    (hpt : ∀ j, getCell f1 col j = some p ↔ getCell f2 col j = some p) :
    ∀ fuel s, find_top f1 col p fuel s = find_top f2 col p fuel s := by
  intro fuel
  induction fuel with
  | zero => intro s; rfl
  | succ k ih =>
    intro s
    unfold find_top
    by_cases hc : getCell f1 col s = some p
    · rw [if_pos hc, if_pos ((hpt s).mp hc)]
    · rw [if_neg hc, if_neg (fun h2 => hc ((hpt s).mpr h2))]
      exact ih (s + 1)

theorem find_top_reaches {f : GameField} {col : Nat} {p : Player} :
    ∀ fuel s i, s ≤ i → i < s + fuel →
      (∀ j, s ≤ j → j < i → getCell f col j ≠ some p) →
      getCell f col i = some p → find_top f col p fuel s = some i := by
  intro fuel
  induction fuel with
  | zero => intro s i h1 h2 _ _; omega
  | succ k ih =>
    intro s i h1 h2 hbelow hc
    unfold find_top
    rcases Nat.eq_or_lt_of_le h1 with rfl | hlt
    · rw [if_pos hc]
    · rw [if_neg (hbelow s (Nat.le_refl s) hlt)]
      exact ih (s + 1) i (by omega) (by omega)
        (fun j hj1 hj2 => hbelow j (by omega) hj2) hc

theorem get_result_isSome_of_last {f : GameField} {turn : Nat}
    (h : LAST_TURN ≤ turn) : (get_result f turn).isSome = true := by
  by_cases hne : allMatches f = []
  · unfold get_result
    rw [if_pos (by simpa using hne), if_pos h]
    rfl
  · exact get_result_isSome_of_ne_nil f turn hne

theorem setCell_place_erase {f : GameField} (hw : Wf f) {x y : Nat} (p : Player)
    (hx : x < FIELD_SIZE) (hy : y < FIELD_SIZE) (hnone : getCell f x y = none) :
    ∀ a b, getCell (setCell (setCell f x y (some p)) x y none) a b = getCell f a b := by
  intro a b
  by_cases hab : a = x ∧ b = y
  · obtain ⟨rfl, rfl⟩ := hab
    rw [getCell_setCell_same (wf_setCell hw a b _) hx hy, hnone]
  · rw [getCell_setCell_ne _ _ hab, getCell_setCell_ne _ _ hab]


theorem player_other_ne (p : Player) : p.other ≠ p := by
  cases p <;> decide

theorem player_other_other (p : Player) : p.other.other = p := by
  cases p <;> rfl

/-- Characterization of `skip_incremental_check` when the last move and the
opponent's topmost piece in its column are known. -/
theorem skipCheck_char {f : GameField} {rules : GameRules} {st : GameState}
    {colL iL : Nat} (had : rules.allow_draws = true) (hlm : st.last_move = some colL)
    (hft : find_top f colL st.player.other FIELD_SIZE 0 = some iL) :
    skipCheck f rules st = is_move_winning f colL iL st.player.other := by
  unfold skipCheck
  rw [if_pos had]
  simp only [hlm, hft]

/-- Inductive invariant for the `allow_draws` bookkeeping: as long as the game
is undecided, at even turns the board has no 4-in-a-row at all, and at odd
turns every 4-in-a-row must pass through the starting player's yet-unchecked
piece: the topmost opponent piece of the `last_move` column. -/
def DrawInv (g : Game) : Prop :=
  g.rules.allow_draws = true → g.state.result = none →
    (g.state.turn % 2 = 0 → ¬ HasAnySeg g.field) ∧
    (g.state.turn % 2 = 1 → ∃ col i, g.state.last_move = some col ∧
      find_top g.field col g.state.player.other FIELD_SIZE 0 = some i ∧
      ¬ HasAnySeg (setCell g.field col i none))

theorem odd_move_complete {g g2 : Game} {col : Nat}
    (hI : EngineInv g) (hD : DrawInv g) (had : g.rules.allow_draws = true)
    (hodd : g.state.turn % 2 = 1) (h : end_turn g col = some (g2, none)) :
    g2.state.result = get_result g2.field g.state.turn := by
  have hw := hI.1
  have hocc := hI.2.1
  obtain ⟨i, st', hcol, hres, hfind, hupd, hg2⟩ := end_turn_ok h
  obtain ⟨hi7, hnone, habove⟩ := findPlacement_spec hfind
  have hF : FIELD_SIZE = 7 := rfl
  have hL : LAST_TURN = 48 := rfl
  have hFS : FIELD_SIZE * FIELD_SIZE = 49 := rfl
  have hcol7 : col < FIELD_SIZE := by have := hw.1; omega
  have hi7' : i < FIELD_SIZE := by omega
  set f2 := setCell g.field col i (some g.state.player) with hf2
  subst hg2
  have hw' : Wf f2 := wf_setCell hw col i _
  have hcell' : getCell f2 col i = some g.state.player :=
    getCell_setCell_same hw hcol7 hi7' _
  have hocc' : occCount f2 = occCount g.field + 1 :=
    occCount_setCell hw _ hcol7 hi7' hnone
  have ht48 : g.state.turn < LAST_TURN := by
    have h49 := occCount_le hw'
    omega
  obtain ⟨colL, iL, hlm, hft, hnoL⟩ := (hD had hres).2 hodd
  have hftiff : ∀ j, getCell g.field colL j = some g.state.player.other ↔
      getCell f2 colL j = some g.state.player.other := by
    intro j
    by_cases hj : colL = col ∧ j = i
    · rw [hj.1, hj.2, hnone, hcell']
      constructor
      · intro h2
        exact Option.noConfusion h2
      · intro h2
        exact absurd (Option.some.inj h2).symm (player_other_ne g.state.player)
    · rw [hf2, getCell_setCell_ne _ _ hj]
  have hft2 : find_top f2 colL g.state.player.other FIELD_SIZE 0 = some iL := by
    rw [← find_top_congr hftiff FIELD_SIZE 0]
    exact hft
  have hskipEq := skipCheck_char had hlm hft2
  unfold update_result at hupd
  rw [if_neg (by omega)] at hupd
  rw [if_neg (by rintro ⟨h1, h2⟩; omega)] at hupd
  cases hfired : skipCheck f2 g.rules g.state
      || is_move_winning f2 col i g.state.player with
  | true =>
    rw [if_pos hfired] at hupd
    cases hg : get_result f2 g.state.turn with
    | none =>
      simp only [hg] at hupd
      exact Option.noConfusion hupd
    | some r =>
      simp only [hg] at hupd
      have hst' : st' = { g.state with result := some r } := (Option.some.inj hupd).symm
      simp [GameState.next_turn, hst', hg]
  | false =>
    rw [if_neg (by simp [hfired])] at hupd
    have hst' : st' = g.state := (Option.some.inj hupd).symm
    obtain ⟨hskip, hwin⟩ := Bool.or_eq_false_iff.mp hfired
    have hnoseg : ¬ HasAnySeg f2 := by
      rintro ⟨q, hq⟩
      rcases hasSeg_elim_setCell col i hq with hthr | hsurv
      · have hcq := segThrough_cell hthr
        rw [hcell'] at hcq
        have hqe : g.state.player = q := Option.some.inj hcq
        rw [← hqe] at hthr
        have := (is_move_winning_iff f2 col i g.state.player hw' hcell').mpr hthr
        exact absurd this (by simp [hwin])
      · have hqf : HasSeg g.field q :=
          hasSeg_congr (setCell_place_erase hw _ hcol7 hi7' hnone) hsurv
        rcases hasSeg_elim_setCell colL iL hqf with hthrL | hsurvL
        · have hcellL : getCell g.field colL iL = some g.state.player.other :=
            find_top_spec hft
          have hcq := segThrough_cell hthrL
          rw [hcellL] at hcq
          have hqe : g.state.player.other = q := Option.some.inj hcq
          rw [← hqe] at hthrL
          have hneLi : ¬(colL = col ∧ iL = i) := by
            rintro ⟨h1, h2⟩
            rw [h1, h2, hnone] at hcellL
            exact Option.noConfusion hcellL
          have hcellL2 : getCell f2 colL iL = some g.state.player.other := by
            rw [hf2, getCell_setCell_ne _ _ hneLi]
            exact hcellL
          have hthrL2 : SegThrough f2 g.state.player.other colL iL := by
            refine segThrough_mono ?_ hthrL
            intro a b hab
            by_cases h2 : a = col ∧ b = i
            · rw [h2.1, h2.2, hnone] at hab
              exact Option.noConfusion hab
            · rw [hf2, getCell_setCell_ne _ _ h2]
              exact hab
          have hwin2 := (is_move_winning_iff f2 colL iL g.state.player.other
            hw' hcellL2).mpr hthrL2
          rw [← hskipEq] at hwin2
          exact absurd hwin2 (by simp [hskip])
        · exact hnoL ⟨q, hsurvL⟩
    have hgr : get_result f2 g.state.turn = none :=
      (get_result_none_iff f2 g.state.turn hw').mpr ⟨hnoseg, ht48⟩
    simp [GameState.next_turn, hst', hres, hgr]

theorem drawInv_step {g g2 : Game} {col : Nat}
    (hI : EngineInv g) (hD : DrawInv g) (h : end_turn g col = some (g2, none)) :
    DrawInv g2 := by
  have hw := hI.1
  have hocc := hI.2.1
  have hgrav := hI.2.2.1
  obtain ⟨i, st', hcol, hres, hfind, hupd, hg2⟩ := end_turn_ok h
  obtain ⟨hi7, hnone, habove⟩ := findPlacement_spec hfind
  have hF : FIELD_SIZE = 7 := rfl
  have hL : LAST_TURN = 48 := rfl
  have hFS : FIELD_SIZE * FIELD_SIZE = 49 := rfl
  have hcol7 : col < FIELD_SIZE := by have := hw.1; omega
  have hi7' : i < FIELD_SIZE := by omega
  set f2 := setCell g.field col i (some g.state.player) with hf2
  subst hg2
  have hw' : Wf f2 := wf_setCell hw col i _
  have hcell' : getCell f2 col i = some g.state.player :=
    getCell_setCell_same hw hcol7 hi7' _
  obtain ⟨r0, hsh⟩ := update_result_shape hupd
  have hstt : st'.turn = g.state.turn := by rw [hsh]
  intro had2 hres2
  have had : g.rules.allow_draws = true := had2
  have hres2' : st'.result = none := by
    simpa [GameState.next_turn] using hres2
  constructor
  · intro heven2
    have heven2' : (st'.turn + 1) % 2 = 0 := by
      simpa [GameState.next_turn] using heven2
    have hodd : g.state.turn % 2 = 1 := by omega
    have hcmp := odd_move_complete hI hD had hodd h
    rw [hres2] at hcmp
    exact ((get_result_none_iff _ _ hw').mp hcmp.symm).1
  · intro hodd2
    have hodd2' : (st'.turn + 1) % 2 = 1 := by
      simpa [GameState.next_turn] using hodd2
    have heven : g.state.turn % 2 = 0 := by omega
    by_cases hlast : LAST_TURN ≤ g.state.turn
    · exfalso
      unfold update_result at hupd
      rw [if_pos hlast] at hupd
      have hst' : st' = { g.state with result := get_result f2 g.state.turn } :=
        (Option.some.inj hupd).symm
      rw [hst'] at hres2'
      simp only [] at hres2'
      have hsome : (get_result f2 g.state.turn).isSome = true :=
        get_result_isSome_of_last hlast
      rw [hres2'] at hsome
      exact Bool.noConfusion hsome
    · unfold update_result at hupd
      rw [if_neg hlast, if_pos ⟨had, heven⟩] at hupd
      have hst' : st' = g.state := (Option.some.inj hupd).symm
      refine ⟨col, i, by simp [GameState.next_turn], ?_, ?_⟩
      · show find_top f2 col (st'.next_turn col).player.other FIELD_SIZE 0 = some i
        rw [hst']
        simp only [GameState.next_turn]
        rw [player_other_other]
        refine find_top_reaches FIELD_SIZE 0 i (by omega) (by omega) ?_ hcell'
        intro j hj0 hji hc
        have hcj : getCell g.field col j = some g.state.player := by
          rw [hf2, getCell_setCell_ne _ _ (by rintro ⟨h1, h2⟩; omega)] at hc
          exact hc
        have := hgrav col j i (by omega) (by omega) (by rw [hcj]; rfl)
        rw [hnone] at this
        exact Bool.noConfusion this
      · show ¬ HasAnySeg (setCell f2 col i none)
        rintro ⟨q, hq⟩
        have hqf : HasSeg g.field q :=
          hasSeg_congr (setCell_place_erase hw _ hcol7 hi7' hnone) hq
        exact ((hD had hres).1 heven) ⟨q, hqf⟩

theorem drawInv_new (rules : GameRules) : DrawInv (Game.new rules) := by
  intro had hres
  constructor
  · intro _
    rintro ⟨q, hq⟩
    have hW : (0 : Nat) < WIN_LEN := by decide
    rcases hq with ⟨x0, y0, hs⟩ | ⟨x0, y0, hs⟩ | ⟨x0, y0, hs⟩ | ⟨x0, y0, hs⟩
    · have := hs 0 hW
      rw [show (Game.new rules).field = EMPTY_FIELD from rfl, getCell_empty] at this
      exact Option.noConfusion this
    · have := hs 0 hW
      rw [show (Game.new rules).field = EMPTY_FIELD from rfl, getCell_empty] at this
      exact Option.noConfusion this
    · have := hs 0 hW
      rw [show (Game.new rules).field = EMPTY_FIELD from rfl, getCell_empty] at this
      exact Option.noConfusion this
    · have := hs.2 0 hW
      rw [show (Game.new rules).field = EMPTY_FIELD from rfl, getCell_empty] at this
      exact Option.noConfusion this
  · intro hodd
    have h0 : (Game.new rules).state.turn = 0 := rfl
    omega

theorem reachable_drawInv {g : Game} (h : Reachable g) : DrawInv g := by
  obtain ⟨rules, ms, hp⟩ := h
  have step : ∀ ga colx gb, (EngineInv ga ∧ DrawInv ga) →
      end_turn ga colx = some (gb, none) → (EngineInv gb ∧ DrawInv gb) :=
    fun ga colx gb hP he => ⟨engineInv_step hP.1 he, drawInv_step hP.1 hP.2 he⟩
  exact (playMoves_preserves step ms _ g ⟨engineInv_new rules, drawInv_new rules⟩ hp).2

/-- Rules with `allow_draws` enabled, player 1 starting. -/
def drawRules : GameRules := ⟨Player.P1, true⟩

/-- A mid-game `allow_draws` position: moves 3,3,4,4 from the empty board. -/
def drawGame : Game :=
  (playMoves (Game.new drawRules) [3, 3, 4, 4]).getD (Game.new drawRules)

/-- C4: `allow_draws` round structure.  For every reachable game with
`allow_draws` on: (a) a successful move at an even turn below the board-full
bound leaves the result unset (the starter's move is never checked); (b) a
successful move at an odd turn leaves exactly the result of the full scan of
the new board, so a delayed run of the starter is detected and classified by
`get_result`; (c) whenever runs of both players coexist, the full scan
reports a draw and match starts belonging to both players. -/
theorem allow_draws_round (g : Game) (h : Reachable g)
    (had : g.rules.allow_draws = true) :
    (∀ col g2, g.state.turn % 2 = 0 → g.state.turn < LAST_TURN →
        end_turn g col = some (g2, none) → g2.state.result = none) ∧
    (∀ col g2, g.state.turn % 2 = 1 → end_turn g col = some (g2, none) →
        g2.state.result = get_result g2.field g.state.turn) ∧
    (∀ f turn, Wf f → HasSeg f Player.P1 → HasSeg f Player.P2 →
        ∃ ms2, get_result f turn = some ⟨GameWinner.Draw, ms2⟩ ∧
          ∀ p : Player, ∃ m ∈ ms2, getCell f m.1.1 m.1.2 = some p) := by
  refine ⟨?_, ?_, ?_⟩
  · intro col g2 heven hlt h2
    obtain ⟨i, st', hcol, hres, hfind, hupd, hg2⟩ := end_turn_ok h2
    unfold update_result at hupd
    rw [if_neg (by omega), if_pos ⟨had, heven⟩] at hupd
    have hst' : st' = g.state := (Option.some.inj hupd).symm
    rw [hg2]
    simp [GameState.next_turn, hst', hres]
  · intro col g2 hodd h2
    exact odd_move_complete (reachable_engineInv h) (reachable_drawInv h) had hodd h2
  · intro f turn hwf h1 h2
    obtain ⟨m1, hm1, hc1⟩ := hasSeg_match hwf h1
    obtain ⟨m2, hm2, hc2⟩ := hasSeg_match hwf h2
    have hne : allMatches f ≠ [] := allMatches_ne_nil_of_hasSeg hwf h1
    have hb1 : (winnerFold f (allMatches f)).1 = true :=
      (winnerFold_fst f (allMatches f)).2 ⟨m1, hm1, hc1⟩
    have hb2 : (winnerFold f (allMatches f)).2 = true :=
      (winnerFold_snd f (allMatches f)).2 ⟨m2, hm2, hc2⟩
    have hfold : winnerFold f (allMatches f) = (true, true) := by
      rcases hf : winnerFold f (allMatches f) with ⟨b1, b2⟩
      rw [hf] at hb1 hb2
      simp at hb1 hb2
      rw [hb1, hb2]
    refine ⟨allMatches f, get_result_flags_tt hne hfold, ?_⟩
    intro p
    cases p
    · exact ⟨m1, hm1, hc1⟩
    · exact ⟨m2, hm2, hc2⟩

theorem allow_draws_round_witness :
    (∀ col g2, drawGame.state.turn % 2 = 0 → drawGame.state.turn < LAST_TURN →
        end_turn drawGame col = some (g2, none) → g2.state.result = none) ∧
    (∀ col g2, drawGame.state.turn % 2 = 1 →
        end_turn drawGame col = some (g2, none) →
        g2.state.result = get_result g2.field drawGame.state.turn) ∧
    (∀ f turn, Wf f → HasSeg f Player.P1 → HasSeg f Player.P2 →
        ∃ ms2, get_result f turn = some ⟨GameWinner.Draw, ms2⟩ ∧
          ∀ p : Player, ∃ m ∈ ms2, getCell f m.1.1 m.1.2 = some p) :=
  allow_draws_round drawGame ⟨drawRules, [3, 3, 4, 4], by decide⟩ rfl


/-! ### Session-layer model (`src/server/actor/game.rs`) -/

/-- `GameConfig` (`src/game_config.rs`); the two `Duration` fields are
modelled as natural numbers. -/
structure GameConfig where
  time_per_turn : Nat
  time_cap : Nat
  allow_draws : Bool
deriving DecidableEq, Repr

/-- `PartialGameConfig` (`src/game_config.rs`). -/
structure PartialGameConfig where
  time_per_turn : Option Nat
  time_cap : Option Nat
  allow_draws : Option Bool
deriving DecidableEq, Repr

/-- `GameConfig::apply_partial` (`src/game_config.rs`). -/
def GameConfig.applyPartial (c : GameConfig) (part : PartialGameConfig) : GameConfig :=
  { time_per_turn := part.time_per_turn.getD c.time_per_turn,
    time_cap := part.time_cap.getD c.time_cap,
    allow_draws := part.allow_draws.getD c.allow_draws }

/-- `PlayerTuple` (`src/server/actor/game.rs`), one value per player. -/
structure PlayerTuple (α : Type) where
  p1 : α
  p2 : α
deriving DecidableEq, Repr

/-- Indexing a `PlayerTuple` (`Index<Player>`). -/
def PlayerTuple.get {α : Type} (t : PlayerTuple α) : Player → α
  | .P1 => t.p1
  | .P2 => t.p2

/-- Updating a `PlayerTuple` (`IndexMut<Player>`). -/
def PlayerTuple.set {α : Type} (t : PlayerTuple α) : Player → α → PlayerTuple α
  | .P1, v => { t with p1 := v }
  | .P2, v => { t with p2 := v }

/-- `TurnTimeout`: the armed turn timer.  Only the fire instant is modelled;
the actix `SpawnHandle` and the wall-clock copy are dropped. -/
structure TurnTimeout' where
  instant : Nat
deriving DecidableEq, Repr

/-- `RestartRequest` (`src/server/actor/game.rs`): optional changed config
plus the expiry timestamp of its own timeout. -/
structure RestartRequest' where
  config : Option GameConfig
  timestamp : Nat
deriving DecidableEq, Repr

/-- `InGameStage` (`src/server/actor/game.rs`). -/
structure InGameStage' where
  game : Game
  extra_time : PlayerTuple Nat
  timeout : Option TurnTimeout'
deriving DecidableEq, Repr

/-- `GameStage` (`src/server/actor/game.rs`). -/
inductive GameStage' where
  | PlayerSelection (p1_vote p2_vote : Option Bool)
  | InGame (stage : InGameStage')
deriving DecidableEq, Repr

/-- The `Game` actor state (`src/server/actor/game.rs`).  Connection
addresses are modelled as numbers.  The `restart_request_timeout` field is
the expiry window read from the app configuration; the `AppConfig` struct in
`src/server/config.rs` of this snapshot does not carry it (only the CLI
parser mentions it), so the field is kept directly on the actor, its value
modelled from the spec ("a pending request expires after a fixed window"). -/
structure ActorGame where
  stage : GameStage'
  round : Nat
  config : GameConfig
  addrs : PlayerTuple Nat
  restart_requests : PlayerTuple (Option RestartRequest')
  restart_request_timeout : Nat
deriving DecidableEq, Repr

/-- `u32` modulus for the wrapping round counter. -/
def UINT32_MOD : Nat := 4294967296

/-- `GameStage::is_game_over` lifted to the actor. -/
def is_game_over (a : ActorGame) : Bool :=
  match a.stage with
  | .InGame stage => stage.game.state.result.isSome
  | _ => false

/-- The incremental-check part of a pass under `allow_draws`, mirroring
`Game::update_result` with no placed cell. -/
def passResult (g : Game) : Option GameResult :=
  if LAST_TURN ≤ g.state.turn then get_result g.field g.state.turn
  else if g.rules.allow_draws ∧ g.state.turn % 2 = 0 then g.state.result
  else if skipCheck g.field g.rules g.state then get_result g.field g.state.turn
  else g.state.result

/-- Modelled from the spec: `applyPass` — the board-engine pass operation
used for a timed-out turn.  The actor calls `game.end_turn(msg.col)` with an
`Option` column, but `Game::end_turn` in `src/game.rs` of this snapshot only
takes a plain column index; the pass variant is reconstructed from the spec:
it fails once the game is terminal, otherwise advances `currentPlayer` and
`turnIndex` without touching the grid, performing the one extra incremental
check allowed under `allowDraws` (full re-scan when it fires). -/
def applyPass (g : Game) : Game × Option EndTurnError :=
  if g.state.result.isSome then (g, some .GameOver)
  else
    ({ g with state := { g.state with
          turn := g.state.turn + 1,
          player := g.state.player.other,
          result := passResult g } }, none)

/-- The engine call `game.end_turn(msg.col)` made by the actor: a present
column is a normal move, an absent one a pass.  `none` marks the engine
panic. -/
def engine_end_turn (g : Game) (col : Option Nat) : Option (Game × Option EndTurnError) :=
  match col with
  | some col2 => end_turn g col2
  | none => some (applyPass g)

/-- `EndTurn` message (`src/server/actor/game.rs`). -/
structure EndTurnMsg where
  player : Nat
  turn : Nat
  col : Option Nat
deriving DecidableEq, Repr

/-- `Game::get_timeout_duration` (`src/server/actor/game.rs`).  The constant
`TIME_PER_TURN_MIN` lives in `src/server/constants.rs`, which is absent from
this snapshot; it is therefore passed as the parameter `minTPT`
(modelled from the spec: "a minimum threshold"). -/
def get_timeout_duration (minTPT : Nat) (extra_time : Nat) (config : GameConfig) : Nat :=
  if config.time_per_turn < minTPT then 0
  else min (extra_time + config.time_per_turn) (max config.time_cap config.time_per_turn)

/-- `Game::start_timeout` (`src/server/actor/game.rs`). -/
def start_timeout (minTPT now : Nat) (timeout : Option TurnTimeout') (duration : Nat) :
    Option TurnTimeout' :=
  if timeout.isSome || decide (duration < minTPT) then timeout
  else some ⟨now + duration⟩

/-- `Game::clear_timeout` (`src/server/actor/game.rs`): returns the cleared
slot and the remaining time, which saturates at zero like `Instant`
subtraction. -/
def clear_timeout (now : Nat) (timeout : Option TurnTimeout') :
    Option TurnTimeout' × Nat :=
  match timeout with
  | none => (none, 0)
  | some t => (none, t.instant - now)

/-- `Handler<EndTurn> for Game` (`src/server/actor/game.rs`).  `none` marks
the engine panic propagating out of `game.end_turn`. -/
def handleEndTurn (minTPT now : Nat) (a : ActorGame) (msg : EndTurnMsg) :
    Option ActorGame :=
  match a.stage with
  | .PlayerSelection v1 v2 => some { a with stage := .PlayerSelection v1 v2 }
  | .InGame st =>
    if msg.player = a.addrs.get st.game.state.player ∧ st.game.state.turn = msg.turn then
      match engine_end_turn st.game msg.col with
      | none => none
      | some (_, some _) => some a
      | some (g2, none) =>
        let cleared := clear_timeout now st.timeout
        let extra1 := if st.game.state.turn = 0 then st.extra_time
          else st.extra_time.set st.game.state.player cleared.2
        if g2.state.result = none then
          let duration := get_timeout_duration minTPT (extra1.get g2.state.player) a.config
          some { a with stage := .InGame ⟨g2, extra1, start_timeout minTPT now cleared.1 duration⟩ }
        else
          some { a with stage := .InGame ⟨g2, extra1, cleared.1⟩ }
    else some a

/-- `Game::on_timeout` (`src/server/actor/game.rs`): synthesizes an
`EndTurn` message with no column from the current player at the current
turn and feeds it to the ordinary handler. -/
def on_timeout (minTPT now : Nat) (a : ActorGame) : Option ActorGame :=
  match a.stage with
  | .PlayerSelection _ _ => some a
  | .InGame st =>
    handleEndTurn minTPT now a ⟨a.addrs.get st.game.state.player, st.game.state.turn, none⟩

/-- `Game::update_restart_request` (`src/server/actor/game.rs`): drops any
previous request of the player and installs a fresh one with a new expiry. -/
def update_restart_request (now : Nat) (a : ActorGame) (config : Option GameConfig)
    (player : Player) : ActorGame :=
  { a with restart_requests :=
      a.restart_requests.set player (some ⟨config, now + a.restart_request_timeout⟩) }

/-- One player's part of `Game::dismiss_duplicate_restart_requests`. -/
def dismissDup1 (cfg : GameConfig) (r : Option RestartRequest') : Option RestartRequest' :=
  match r with
  | some req =>
    match req.config with
    | some c2 => if c2 = cfg then none else some req
    | none => some req
  | none => none

/-- `Game::dismiss_duplicate_restart_requests` (`src/server/actor/game.rs`). -/
def dismiss_duplicate_restart_requests (a : ActorGame) : ActorGame :=
  { a with restart_requests :=
      ⟨dismissDup1 a.config a.restart_requests.p1,
       dismissDup1 a.config a.restart_requests.p2⟩ }

/-- `Game::restart` (`src/server/actor/game.rs`): back to player selection,
wrapping-increment of the round counter. -/
def restart (a : ActorGame) : ActorGame :=
  let a1 := dismiss_duplicate_restart_requests a
  { a1 with stage := .PlayerSelection none none, round := (a1.round + 1) % UINT32_MOD }

/-- `Game::accept_restart_request` (`src/server/actor/game.rs`). -/
def accept_restart_request (a : ActorGame) (player : Player) : ActorGame :=
  match a.restart_requests.get player with
  | none => a
  | some req =>
    let a1 := dismiss_duplicate_restart_requests
      { a with restart_requests := a.restart_requests.set player none }
    match req.config with
    | some c2 => { a1 with config := c2 }
    | none => a1

/-- `Game::reject_restart_request` (`src/server/actor/game.rs`). -/
def reject_restart_request (a : ActorGame) (player : Player) : ActorGame :=
  { a with restart_requests := a.restart_requests.set player none }

/-- `Handler<Restart> for Game` (`src/server/actor/game.rs`). -/
def handleRestart (now : Nat) (a : ActorGame) (player : Player)
    (part : Option PartialGameConfig) : ActorGame :=
  match part with
  | some part2 =>
    let config2 := GameConfig.applyPartial a.config part2
    if a.config = config2 then
      if is_game_over a then restart a else update_restart_request now a none player
    else update_restart_request now a (some config2) player
  | none =>
    if is_game_over a then restart a else update_restart_request now a none player

/-- `Handler<RestartResponse> for Game` (`src/server/actor/game.rs`): the
responder answers the opponent's pending request. -/
def handleRestartResponse (a : ActorGame) (responder : Player) (accepted : Bool) :
    ActorGame :=
  if accepted then restart (accept_restart_request a responder.other)
  else reject_restart_request a responder.other

/-! ### Lobby registry model (`src/server/actor/lobby_router.rs`) -/

/-- Association-list insert with the overwrite semantics of
`HashMap::insert`. -/
def mapInsert (l : List (Nat × Nat)) (k v : Nat) : List (Nat × Nat) :=
  match l with
  | [] => [(k, v)]
  | (k2, v2) :: rest => if k2 = k then (k, v) :: rest else (k2, v2) :: mapInsert rest k v

/-- Association-list lookup. -/
def mapLookup (l : List (Nat × Nat)) (k : Nat) : Option Nat :=
  match l with
  | [] => none
  | (k2, v2) :: rest => if k2 = k then some v2 else mapLookup rest k

/-- `LobbyRouter` (`src/server/actor/lobby_router.rs`): the lobby map
(UUIDs and actor addresses as numbers) plus the configured capacity. -/
structure LobbyRouter where
  lobbies : List (Nat × Nat)
  max_lobbies : Nat
deriving DecidableEq, Repr

/-- `Handler<CreateLobby> for LobbyRouter` (`src/server/actor/lobby_router.rs`).
The single random draw `Uuid::new_v4()` is passed in as `freshId`; the
returned flag is `false` when the request is rejected with
`ServerMaxLobbies`. -/
def handleCreateLobby (r : LobbyRouter) (freshId addr : Nat) : LobbyRouter × Bool :=
  if r.max_lobbies ≤ r.lobbies.length then (r, false)
  else ({ r with lobbies := mapInsert r.lobbies freshId addr }, true)


theorem PlayerTuple.get_set_same {α : Type} (t : PlayerTuple α) (p : Player) (v : α) :
    (t.set p v).get p = v := by
  cases p <;> rfl

theorem PlayerTuple.get_set_other {α : Type} (t : PlayerTuple α) (p q : Player) (v : α)
    (h : p ≠ q) : (t.set p v).get q = t.get q := by
  cases p <;> cases q <;> first | rfl | exact absurd rfl h

theorem accept_restart_request_round (a : ActorGame) (p : Player) :
    (accept_restart_request a p).round = a.round := by
  unfold accept_restart_request
  cases h2 : a.restart_requests.get p with
  | none => rfl
  | some req =>
    dsimp only
    cases req.config <;> rfl

theorem restart_stage_round (a : ActorGame) :
    (restart a).stage = GameStage'.PlayerSelection none none ∧
    (restart a).round = (a.round + 1) % UINT32_MOD :=
  ⟨rfl, rfl⟩

/-! ### Fixtures for the session layer -/

/-- A live (non-terminal) in-game stage over `sampleGame`. -/
def cexStageLive : InGameStage' := ⟨sampleGame, ⟨0, 0⟩, none⟩

/-- A live session: round 0, no pending requests, expiry window 5. -/
def cexLive : ActorGame :=
  ⟨.InGame cexStageLive, 0, ⟨60, 120, false⟩, ⟨10, 20⟩, ⟨none, none⟩, 5⟩

/-- A terminal in-game stage over `wonGame`. -/
def cexStageOver : InGameStage' := ⟨wonGame, ⟨0, 0⟩, none⟩

/-- A terminal session. -/
def cexOver : ActorGame :=
  ⟨.InGame cexStageOver, 0, ⟨60, 120, false⟩, ⟨10, 20⟩, ⟨none, none⟩, 5⟩

/-- A config delta changing the per-turn time. -/
def cexDelta : PartialGameConfig := ⟨some 99, none, none⟩

/-- A live stage with an armed timer firing at instant 100. -/
def timerStage : InGameStage' := ⟨sampleGame, ⟨3, 4⟩, some ⟨100⟩⟩

/-- A session with an armed timer. -/
def timerActor : ActorGame :=
  ⟨.InGame timerStage, 0, ⟨60, 120, false⟩, ⟨10, 20⟩, ⟨none, none⟩, 5⟩

/-- C1: the timer-fire step is exactly a forced pass.  For an in-game
session with an armed timer whose fire instant has been reached, past the
first turn and not yet decided, `on_timeout` literally equals processing an
`EndTurn` message with no column from the current player at the current
turn, and its outcome advances the turn, flips the player, and banks zero
(the saturating remainder) into the mover's extra time.

spec-modelled: the board engine's pass variant of `end_turn` (an `Option`
column) and the `TIME_PER_TURN_MIN` constant are absent from this source
snapshot and are modelled from the spec (`applyPass`, parameter `minTPT`);
the claim's "reachable" armed states are characterized by the explicit
hypotheses (armed timers only ever get started after a successful first
move, hence `turn ≠ 0` and an undecided result). -/
theorem timer_fire_is_pass (minTPT now : Nat) (a : ActorGame) (stage : InGameStage')
    (t : TurnTimeout') (hst : a.stage = GameStage'.InGame stage)
    (harm : stage.timeout = some t) (hfire : t.instant ≤ now)
    (ht0 : stage.game.state.turn ≠ 0) (hres : stage.game.state.result = none) :
    on_timeout minTPT now a
        = handleEndTurn minTPT now a
            ⟨a.addrs.get stage.game.state.player, stage.game.state.turn, none⟩ ∧
    ∃ a2 stage2, on_timeout minTPT now a = some a2 ∧
      a2.stage = GameStage'.InGame stage2 ∧
      stage2.game.state.turn = stage.game.state.turn + 1 ∧
      stage2.game.state.player = stage.game.state.player.other ∧
      stage2.extra_time.get stage.game.state.player = 0 := by
  have hot : on_timeout minTPT now a
      = handleEndTurn minTPT now a
          ⟨a.addrs.get stage.game.state.player, stage.game.state.turn, none⟩ := by
    unfold on_timeout
    rw [hst]
  refine ⟨hot, ?_⟩
  have hpass : engine_end_turn stage.game none
      = some ({ stage.game with state := { stage.game.state with
            turn := stage.game.state.turn + 1,
            player := stage.game.state.player.other,
            result := passResult stage.game } }, none) := by
    unfold engine_end_turn applyPass
    rw [if_neg (by simp [hres])]
  have hclear : clear_timeout now stage.timeout = (none, 0) := by
    rw [harm]
    unfold clear_timeout
    simp [Nat.sub_eq_zero_of_le hfire]
  by_cases hr2 : passResult stage.game = none
  · have key : on_timeout minTPT now a = some { a with stage := (GameStage'.InGame
        ⟨{ stage.game with state := { stage.game.state with
              turn := stage.game.state.turn + 1,
              player := stage.game.state.player.other,
              result := passResult stage.game } },
          stage.extra_time.set stage.game.state.player 0,
          start_timeout minTPT now none
            (get_timeout_duration minTPT
              ((stage.extra_time.set stage.game.state.player 0).get
                stage.game.state.player.other) a.config)⟩) } := by
      rw [hot]
      unfold handleEndTurn
      simp only [hst]
      rw [if_pos ⟨trivial, trivial⟩]
      simp only [hpass, hclear, if_neg ht0, if_pos hr2]
    exact ⟨_, _, key, rfl, rfl, rfl, PlayerTuple.get_set_same _ _ _⟩
  · have key : on_timeout minTPT now a = some { a with stage := (GameStage'.InGame
        ⟨{ stage.game with state := { stage.game.state with
              turn := stage.game.state.turn + 1,
              player := stage.game.state.player.other,
              result := passResult stage.game } },
          stage.extra_time.set stage.game.state.player 0, none⟩) } := by
      rw [hot]
      unfold handleEndTurn
      simp only [hst]
      rw [if_pos ⟨trivial, trivial⟩]
      simp only [hpass, hclear, if_neg ht0, if_neg hr2]
    exact ⟨_, _, key, rfl, rfl, rfl, PlayerTuple.get_set_same _ _ _⟩

theorem timer_fire_is_pass_witness :
    (on_timeout 1 100 timerActor
        = handleEndTurn 1 100 timerActor
            ⟨timerActor.addrs.get timerStage.game.state.player,
             timerStage.game.state.turn, none⟩ ∧
     ∃ a2 stage2, on_timeout 1 100 timerActor = some a2 ∧
       a2.stage = GameStage'.InGame stage2 ∧
       stage2.game.state.turn = timerStage.game.state.turn + 1 ∧
       stage2.game.state.player = timerStage.game.state.player.other ∧
       stage2.extra_time.get timerStage.game.state.player = 0) :=
  timer_fire_is_pass 1 100 timerActor timerStage ⟨100⟩ rfl rfl (by decide)
    (by decide) (by decide)

/-- C2 counterexample: in a live session, a second identical no-delta
request from player 1 is not a no-op (the pending request is replaced and
carries a fresh expiry), and player 2's follow-up no-delta request does not
restart the round: the stage and round counter are untouched and player 2
merely gains a pending request of their own. -/
theorem restart_request_counterexample :
    ((handleRestart 20 (handleRestart 10 cexLive Player.P1 none) Player.P1 none)
        |>.restart_requests.get Player.P1)
      ≠ ((handleRestart 10 cexLive Player.P1 none).restart_requests.get Player.P1) ∧
    (handleRestart 30 (handleRestart 20 (handleRestart 10 cexLive Player.P1 none)
        Player.P1 none) Player.P2 none).stage = GameStage'.InGame cexStageLive ∧
    (handleRestart 30 (handleRestart 20 (handleRestart 10 cexLive Player.P1 none)
        Player.P1 none) Player.P2 none).round = cexLive.round ∧
    (handleRestart 30 (handleRestart 20 (handleRestart 10 cexLive Player.P1 none)
        Player.P1 none) Player.P2 none).restart_requests.get Player.P2
      = some ⟨none, 35⟩ := by
  refine ⟨?_, rfl, rfl, rfl⟩
  decide

/-- C2 (amended): in a non-terminal session a no-delta restart request from
`p` always (re)installs a pending request for `p` with a fresh expiry —
an identical existing request is replaced, not skipped — while the stage,
the round counter and the opponent's slot are untouched; no immediate
restart happens.  A restart is instead triggered by an explicit accepted
`RestartResponse`, which always moves the session back to player selection
and bumps the wrapping round counter. -/
theorem restart_request_replaces (now : Nat) (a : ActorGame) (p : Player)
    (hng : is_game_over a = false) :
    handleRestart now a p none = update_restart_request now a none p ∧
    (update_restart_request now a none p).restart_requests.get p
        = some ⟨none, now + a.restart_request_timeout⟩ ∧
    (update_restart_request now a none p).stage = a.stage ∧
    (update_restart_request now a none p).round = a.round ∧
    (update_restart_request now a none p).restart_requests.get p.other
        = a.restart_requests.get p.other ∧
    (∀ (b : ActorGame) (q : Player),
        (handleRestartResponse b q true).stage = GameStage'.PlayerSelection none none ∧
        (handleRestartResponse b q true).round = (b.round + 1) % UINT32_MOD) := by
  refine ⟨?_, PlayerTuple.get_set_same _ _ _, rfl, rfl,
    PlayerTuple.get_set_other _ _ _ _ (Ne.symm (player_other_ne p)), ?_⟩
  · simp only [handleRestart]
    rw [if_neg (by simp [hng])]
  · intro b q
    unfold handleRestartResponse
    rw [if_pos rfl]
    refine ⟨rfl, ?_⟩
    show ((accept_restart_request b q.other).round + 1) % UINT32_MOD
        = (b.round + 1) % UINT32_MOD
    rw [accept_restart_request_round]

theorem restart_request_replaces_witness :
    handleRestart 6 cexLive Player.P1 none = update_restart_request 6 cexLive none Player.P1 ∧
    (update_restart_request 6 cexLive none Player.P1).restart_requests.get Player.P1
        = some ⟨none, 6 + cexLive.restart_request_timeout⟩ ∧
    (update_restart_request 6 cexLive none Player.P1).stage = cexLive.stage ∧
    (update_restart_request 6 cexLive none Player.P1).round = cexLive.round ∧
    (update_restart_request 6 cexLive none Player.P1).restart_requests.get Player.P1.other
        = cexLive.restart_requests.get Player.P1.other ∧
    (∀ (b : ActorGame) (q : Player),
        (handleRestartResponse b q true).stage = GameStage'.PlayerSelection none none ∧
        (handleRestartResponse b q true).round = (b.round + 1) % UINT32_MOD) :=
  restart_request_replaces 6 cexLive Player.P1 (by decide)

/-- C7 counterexample: in a terminal session, a restart request carrying a
config-changing delta is not accepted immediately: the session stays in
its terminal in-game stage, the round counter is unchanged, and a pending
request is created for the requester instead. -/
theorem terminal_restart_counterexample :
    (handleRestart 10 cexOver Player.P1 (some cexDelta)).stage
        = GameStage'.InGame cexStageOver ∧
    (handleRestart 10 cexOver Player.P1 (some cexDelta)).round = cexOver.round ∧
    (handleRestart 10 cexOver Player.P1 (some cexDelta)).restart_requests.get Player.P1
        = some ⟨some ⟨99, 120, false⟩, 15⟩ := by
  refine ⟨rfl, rfl, rfl⟩

/-- C7 (amended): in a terminal session, a restart request with no delta —
or with a delta that leaves the config unchanged — restarts immediately
(back to player selection, wrapping round increment, via `restart`), but a
request whose delta changes the config still only creates a pending
request, exactly as in the non-terminal case. -/
theorem terminal_restart_behavior (now : Nat) (a : ActorGame) (p : Player)
    (hover : is_game_over a = true) :
    handleRestart now a p none = restart a ∧
    (∀ part : PartialGameConfig, GameConfig.applyPartial a.config part = a.config →
        handleRestart now a p (some part) = restart a) ∧
    (∀ part : PartialGameConfig, GameConfig.applyPartial a.config part ≠ a.config →
        handleRestart now a p (some part)
          = update_restart_request now a (some (GameConfig.applyPartial a.config part)) p) ∧
    (restart a).stage = GameStage'.PlayerSelection none none ∧
    (restart a).round = (a.round + 1) % UINT32_MOD := by
  refine ⟨?_, ?_, ?_, rfl, rfl⟩
  · simp only [handleRestart]
    rw [if_pos hover]
  · intro part happ
    simp only [handleRestart]
    rw [if_pos happ.symm, if_pos hover]
  · intro part happ
    simp only [handleRestart]
    rw [if_neg (fun h2 => happ h2.symm)]

theorem terminal_restart_behavior_witness :
    handleRestart 7 cexOver Player.P1 none = restart cexOver ∧
    (∀ part : PartialGameConfig,
        GameConfig.applyPartial cexOver.config part = cexOver.config →
        handleRestart 7 cexOver Player.P1 (some part) = restart cexOver) ∧
    (∀ part : PartialGameConfig,
        GameConfig.applyPartial cexOver.config part ≠ cexOver.config →
        handleRestart 7 cexOver Player.P1 (some part)
          = update_restart_request 7 cexOver
              (some (GameConfig.applyPartial cexOver.config part)) Player.P1) ∧
    (restart cexOver).stage = GameStage'.PlayerSelection none none ∧
    (restart cexOver).round = (cexOver.round + 1) % UINT32_MOD :=
  terminal_restart_behavior 7 cexOver Player.P1 (by decide)

/-- The timer formula as the spec words it: `min(extra + perTurn, cap)`,
disabled below the minimum threshold. -/
def spec_timeout_duration (minTPT : Nat) (extra_time : Nat) (config : GameConfig) : Nat :=
  if config.time_per_turn < minTPT then 0
  else min (extra_time + config.time_per_turn) config.time_cap

/-- C8 counterexample: with banked time 0, base 10 and cap 5, the code arms
10 (the cap is first raised to the base), the spec's `min(e + b, c)`
says 5. -/
theorem timeout_duration_counterexample :
    get_timeout_duration 1 0 ⟨10, 5, false⟩ = 10 ∧
    spec_timeout_duration 1 0 ⟨10, 5, false⟩ = 5 ∧
    get_timeout_duration 1 0 ⟨10, 5, false⟩ ≠ spec_timeout_duration 1 0 ⟨10, 5, false⟩ := by
  refine ⟨rfl, rfl, ?_⟩
  decide

/-- C8 (amended): the armed duration is `min(e + b, max(c, b))` — the cap is
first clamped up to the base per-turn time — not `min(e + b, c)`; it is `0`
when the base is below the minimum threshold, and a fresh timer is armed
exactly when the base reaches the threshold.

spec-modelled: `TIME_PER_TURN_MIN` lives in `src/server/constants.rs`,
absent from this snapshot, and is the parameter `minTPT`. -/
theorem timeout_duration_formula (minTPT now e : Nat) (cfg : GameConfig) :
    (minTPT ≤ cfg.time_per_turn →
        get_timeout_duration minTPT e cfg
          = min (e + cfg.time_per_turn) (max cfg.time_cap cfg.time_per_turn)) ∧
    (cfg.time_per_turn < minTPT → get_timeout_duration minTPT e cfg = 0) ∧
    ((start_timeout minTPT now none (get_timeout_duration minTPT e cfg)).isSome = true
        ↔ minTPT ≤ cfg.time_per_turn) := by
  refine ⟨?_, ?_, ?_⟩
  · intro h
    unfold get_timeout_duration
    rw [if_neg (by omega)]
  · intro h
    unfold get_timeout_duration
    rw [if_pos h]
  · unfold start_timeout get_timeout_duration
    by_cases h : cfg.time_per_turn < minTPT
    · rw [if_pos h]
      have h0 : (0 : Nat) < minTPT := by omega
      rw [if_pos (by simp [h0])]
      simp
      omega
    · rw [if_neg h]
      have hd : minTPT ≤ min (e + cfg.time_per_turn) (max cfg.time_cap cfg.time_per_turn) := by
        omega
      rw [if_neg (by simp [Nat.not_lt.mpr hd])]
      simp
      omega

theorem timeout_duration_formula_witness :
    get_timeout_duration 1 0 ⟨10, 5, false⟩ = min (0 + 10) (max 5 10) ∧
    get_timeout_duration 10 0 ⟨5, 99, false⟩ = 0 ∧
    (start_timeout 1 0 none (get_timeout_duration 1 0 ⟨10, 5, false⟩)).isSome = true :=
  ⟨(timeout_duration_formula 1 0 0 ⟨10, 5, false⟩).1 (by decide),
   (timeout_duration_formula 10 0 0 ⟨5, 99, false⟩).2.1 (by decide),
   ((timeout_duration_formula 1 0 0 ⟨10, 5, false⟩).2.2).mpr (by decide)⟩

theorem mapLookup_mapInsert_same (l : List (Nat × Nat)) (k v : Nat) :
    mapLookup (mapInsert l k v) k = some v := by
  induction l with
  | nil => simp [mapInsert, mapLookup]
  | cons kv rest ih =>
    obtain ⟨k2, v2⟩ := kv
    unfold mapInsert
    by_cases h : k2 = k
    · rw [if_pos h]
      simp [mapLookup]
    · rw [if_neg h]
      unfold mapLookup
      rw [if_neg h]
      exact ih

theorem mapLookup_mapInsert_other (l : List (Nat × Nat)) (k v k2 : Nat) (h : k2 ≠ k) :
    mapLookup (mapInsert l k v) k2 = mapLookup l k2 := by
  induction l with
  | nil =>
    unfold mapInsert mapLookup
    rw [if_neg (fun h2 => h h2.symm)]
    rfl
  | cons kv rest ih =>
    obtain ⟨k3, v3⟩ := kv
    unfold mapInsert
    by_cases h3 : k3 = k
    · subst h3
      rw [if_pos rfl]
      unfold mapLookup
      rw [if_neg (fun h2 => h h2.symm), if_neg (fun h2 => h h2.symm)]
    · rw [if_neg h3]
      unfold mapLookup
      by_cases h4 : k3 = k2
      · rw [if_pos h4, if_pos h4]
      · rw [if_neg h4, if_neg h4]
        exact ih

/-- C9 counterexample: with one lobby registered under id 5, a capacity of
10 and the fresh draw colliding on 5, `CreateLobby` overwrites the existing
registry entry — there is no collision-retry loop, and the old lobby address
is lost. -/
theorem create_lobby_counterexample :
    (handleCreateLobby ⟨[(5, 100)], 10⟩ 5 200).1.lobbies = [(5, 200)] ∧
    mapLookup (handleCreateLobby ⟨[(5, 100)], 10⟩ 5 200).1.lobbies 5 ≠ some 100 := by
  refine ⟨rfl, ?_⟩
  decide

/-- C9 (amended): `CreateLobby` at capacity is rejected with the registry
unchanged; below capacity the single fresh draw is inserted with
`HashMap::insert` semantics — the new id maps to the new lobby (overwriting
any colliding entry; there is no retry loop) and every other key is
untouched. -/
theorem create_lobby_behavior (r : LobbyRouter) (freshId addr : Nat) :
    (r.max_lobbies ≤ r.lobbies.length →
        handleCreateLobby r freshId addr = (r, false)) ∧
    (r.lobbies.length < r.max_lobbies →
        (handleCreateLobby r freshId addr).2 = true ∧
        mapLookup (handleCreateLobby r freshId addr).1.lobbies freshId = some addr ∧
        ∀ k, k ≠ freshId →
          mapLookup (handleCreateLobby r freshId addr).1.lobbies k
            = mapLookup r.lobbies k) := by
  constructor
  · intro h
    unfold handleCreateLobby
    rw [if_pos h]
  · intro h
    unfold handleCreateLobby
    rw [if_neg (by omega)]
    exact ⟨rfl, mapLookup_mapInsert_same _ _ _,
      fun k hk => mapLookup_mapInsert_other _ _ _ _ hk⟩

theorem create_lobby_behavior_witness :
    handleCreateLobby ⟨[(5, 100)], 1⟩ 9 200 = (⟨[(5, 100)], 1⟩, false) ∧
    ((handleCreateLobby ⟨[(5, 100)], 10⟩ 9 200).2 = true ∧
      mapLookup (handleCreateLobby ⟨[(5, 100)], 10⟩ 9 200).1.lobbies 9 = some 200 ∧
      ∀ k, k ≠ 9 →
        mapLookup (handleCreateLobby ⟨[(5, 100)], 10⟩ 9 200).1.lobbies k
          = mapLookup [(5, 100)] k) :=
  ⟨(create_lobby_behavior ⟨[(5, 100)], 1⟩ 9 200).1 (by decide),
   (create_lobby_behavior ⟨[(5, 100)], 10⟩ 9 200).2 (by decide)⟩

end ConnectFour
